import Mathlib

/-!
Verification model of `@emmetio/action-utils` (TypeScript sources under `src/`).

Modelling conventions:
* Document offsets and lengths are modelled as `Int` (JavaScript numbers used as
  integer offsets; deltas in the tracker can be negative).
* A text range `[start, end)` is an `Int × Int` pair, mirroring `TextRange`.
* The external collaborators (the `@emmetio/html-matcher` and
  `@emmetio/css-matcher` token scanners, the `emmet` abbreviation
  parser/expander, and the per-editor adapter) are out of scope for the
  repository and are modelled as oracle structures (`Env`, `Editor`) whose
  fields are arbitrary functions; the repository code is translated faithfully
  on top of them.  A scanner invocation `scan(code, callback)` becomes a fold
  of the callback logic over the oracle's token list for `code`, with the
  early-stop (`return false`) semantics made explicit.
* JavaScript string indexing is modelled over `List Char` (one `Char` per
  code unit for the fragments of interest).
-/

/-- JS `String.prototype.slice`-style clamp of one index. -/
def jsClampSlice (len : Int) (i : Int) : Nat :=
  if i < 0 then (len + i).toNat else min i.toNat len.toNat

/-- Model of JS `s.slice(a, b)`. -/
def jsSliceStr (s : String) (a b : Int) : String :=
  let n : Int := s.length
  let lo := jsClampSlice n a
  let hi := jsClampSlice n b
  ((s.data.drop lo).take (hi - lo)).asString

/-- Model of JS `s.slice(a)`. -/
def jsSlice1 (s : String) (a : Int) : String :=
  jsSliceStr s a s.length

/-- JS `String.prototype.substring`-style clamp of one index. -/
def jsClampSub (len : Int) (i : Int) : Nat :=
  if i < 0 then 0 else min i.toNat len.toNat

/-- Model of JS `s.substring(a, b)` (clamps to bounds, swaps if `a > b`). -/
def jsSubstringStr (s : String) (a b : Int) : String :=
  let n : Int := s.length
  let x := jsClampSub n a
  let y := jsClampSub n b
  let lo := min x y
  let hi := max x y
  ((s.data.drop lo).take (hi - lo)).asString

/-- Model of JS `s[i]`: `some` character when `0 ≤ i < s.length`. -/
def charAt? (s : String) (i : Int) : Option Char :=
  if 0 ≤ i then s.data.get? i.toNat else none

/-- Model of JS `s.startsWith(p)`. -/
def strStartsWith (s p : String) : Bool :=
  p.data.isPrefixOf s.data

/-- Association-list model of a JS `Map` keyed by editor id: lookup. -/
def getK {α : Type} (m : List (String × α)) (k : String) : Option α :=
  match m with
  | [] => none
  | (k', v) :: rest => if k' = k then some v else getK rest k

/-- Association-list model of a JS `Map`: `set` (replace or append). -/
def setK {α : Type} (m : List (String × α)) (k : String) (v : α) : List (String × α) :=
  match m with
  | [] => [(k, v)]
  | (k', v') :: rest => if k' = k then (k, v) :: rest else (k', v') :: setK rest k v

/-- Association-list model of a JS `Map`: `delete`. -/
def delK {α : Type} (m : List (String × α)) (k : String) : List (String × α) :=
  match m with
  | [] => []
  | (k', v') :: rest => if k' = k then rest else (k', v') :: delK rest k

/-! ## Token model for the external scanners -/

/-- `@emmetio/css-matcher` token kinds. -/
inductive CTokenType where
  | selector
  | propertyName
  | propertyValue
  | blockEnd
deriving DecidableEq

/-- One stylesheet token as delivered to a `scan` callback:
`(type, start, end, delimiter)`; `delimiter = -1` means "no delimiter". -/
structure CToken where
  type : CTokenType
  start : Int
  endPos : Int
  delimiter : Int
deriving DecidableEq

/-- `@emmetio/html-matcher` element kinds (`ElementType`);
`allTokens` mode also reports non-tag tokens. -/
inductive ElementType where
  | openTag
  | closeTag
  | selfClose
  | cdata
  | processing
  | comment
deriving DecidableEq

/-- One markup token as delivered to a `scan` callback: `(name, type, start, end)`. -/
structure HToken where
  name : String
  type : ElementType
  start : Int
  endPos : Int
deriving DecidableEq

/-- The value part of a parsed attribute token; in the TS `AttributeToken` the
three fields `value`, `valueStart`, `valueEnd` are present together. -/
structure AttrValue where
  text : String
  valueStart : Int
  valueEnd : Int
deriving DecidableEq

/-- Parsed attribute token (`AttributeToken` of `@emmetio/html-matcher`). -/
structure AttrToken where
  name : String
  nameStart : Int
  nameEnd : Int
  value : Option AttrValue
deriving DecidableEq

/-- Scanner options produced by `createOptions` of `@emmetio/html-matcher`. -/
structure HtmlScanOpts where
  xml : Bool
  allTokens : Bool
  special : List String
  emptyElems : List String
deriving DecidableEq

/-! ## External abbreviation parser/expander model -/

/-- Error thrown by the abbreviation parser (`{message, pos}`). -/
structure AbbrError where
  message : String
  pos : Int
deriving DecidableEq

/-- Parsed markup abbreviation node (the fields of emmet's `AbbreviationNode`
inspected by this repository: `name` and `children`). -/
inductive MNode where
  | mk (name : Option String) (children : List MNode)

/-- Name of a markup abbreviation node. -/
def MNode.name : MNode → Option String
  | .mk n _ => n

/-- Children of a markup abbreviation node. -/
def MNode.children : MNode → List MNode
  | .mk _ c => c

/-- Parsed markup abbreviation (emmet `MarkupAbbreviation`: a root with children). -/
structure MAbbr where
  children : List MNode

/-- Stand-in for emmet's parsed `StylesheetAbbreviation` (never inspected by
the repository code, only passed to the expander). -/
structure SAbbr where
  raw : String
deriving DecidableEq

/-- Stand-in for emmet output options (`Partial<Options>`), never inspected. -/
structure OutputOptions where
  tag : Nat
deriving DecidableEq

/-- Abbreviation kind (`SyntaxType` of emmet). -/
inductive SynType where
  | markup
  | stylesheet
deriving DecidableEq

/-- Abbreviation context attached to a `UserConfig` (only its `name` is read
by the repository, for the `CSSAbbreviationScope.Section` check). -/
structure AbbrCtx where
  name : String
deriving DecidableEq

/-- The fields of emmet's `UserConfig` read by this repository. -/
structure UserConfig where
  syntaxName : String
  type : SynType
  context : Option AbbrCtx
  options : Option OutputOptions
deriving DecidableEq

/-- emmet's `CSSAbbreviationScope.Section` marker value. -/
def cssScopeSection : String := "@@section"

/-! ## Context-result data model (`src/context.ts` interfaces) -/

/-- `CSSMatch`: token directly under a stylesheet position. -/
structure CSSMatch where
  name : String
  type : CTokenType
  range : Int × Int
deriving DecidableEq

/-- `CSSContext`. -/
structure CSSContext where
  ancestors : List CSSMatch
  current : Option CSSMatch
  inline : Bool
  embedded : Option (Int × Int)
deriving DecidableEq

/-- `HTMLAncestor`. -/
structure HTMLAncestor where
  name : String
  range : Int × Int
deriving DecidableEq

/-- `HTMLMatch`. -/
structure HTMLMatch where
  name : String
  type : ElementType
  range : Int × Int
deriving DecidableEq

/-- `HTMLContext`. -/
structure HTMLContext where
  ancestors : List HTMLAncestor
  current : Option HTMLMatch
  css : Option CSSContext
deriving DecidableEq

/-! ## The oracle environment

All functionality the repository consumes from other packages, plus the two
context helpers re-exported from the repository's `context` module that are
not part of the provided sources (`getEmbeddedStyleSyntax`,
`getMarkupAbbreviationContext`, `getStylesheetAbbreviationContext`): they are
declared but not defined under `src/`, and no claim depends on their output,
so they are treated as abstract functions. -/
structure Env where
  /-- `scan` of `@emmetio/html-matcher`: token stream per source/options. -/
  scanHTML : String → HtmlScanOpts → List HToken
  /-- `scan` of `@emmetio/css-matcher`: token stream per source. -/
  scanCSS : String → List CToken
  /-- `attributes(tagSource, elementName)` of `@emmetio/html-matcher`. -/
  attrsOf : String → String → List AttrToken
  /-- `splitValue(value, offset?)` of `@emmetio/css-matcher` (offset `0` when absent). -/
  splitValue : String → Int → List (Int × Int)
  /-- default `special` tag list of `createOptions()`. -/
  defaultSpecial : List String
  /-- default `empty` element list of `createOptions()`. -/
  emptyElems : List String
  /-- emmet `stylesheetAbbreviation` (throws modelled as `Except`). -/
  stylesheetAbbreviation : String → Except AbbrError SAbbr
  /-- emmet `markupAbbreviation(abbr, {jsx})`. -/
  markupAbbreviation : String → Bool → Except AbbrError MAbbr
  /-- emmet `expand` on a stylesheet abbreviation with a preview config. -/
  expandStylesheet : SAbbr → UserConfig → Except AbbrError String
  /-- emmet `expand` on a markup abbreviation with a preview config. -/
  expandMarkup : MAbbr → UserConfig → Except AbbrError String
  /-- repository helper `getEmbeddedStyleSyntax(content, ctx)` (source not provided). -/
  getEmbeddedStyleSyntax : String → HTMLContext → Option String
  /-- repository helper `getMarkupAbbreviationContext(content, ctx)` (source not provided). -/
  getMarkupAbbreviationContext : String → HTMLContext → Option AbbrCtx
  /-- repository helper `getStylesheetAbbreviationContext(ctx)` (source not provided). -/
  getStylesheetAbbreviationContext : CSSContext → AbbrCtx

/-- `createOptions` model: defaults plus the option overrides used in the repo. -/
def createOptionsM (env : Env) (xml allTokens : Bool) : HtmlScanOpts :=
  { xml := xml, allTokens := allTokens,
    special := env.defaultSpecial, emptyElems := env.emptyElems }

/-! ## `src/utils.ts` -/

/-- `isSpace` of `utils.ts` (space, tab, NBSP, LF, CR by char code). -/
def isSpace (code : Nat) : Bool :=
  code == 32 || code == 9 || code == 160 || code == 10 || code == 13

/-- `pushRange` of `utils.ts`: append a range unless it is empty or equal to
the previous (last) entry. -/
def pushRange (ranges : List (Int × Int)) (range : Int × Int) : List (Int × Int) :=
  if range.1 ≠ range.2 ∧ ranges.getLast? ≠ some range then
    ranges ++ [range]
  else
    ranges

/-- Inner `while (isSpace(value.charCodeAt(pos))) pos++;` of `tokenList`. -/
def skipSpacesFrom (value : List Char) (pos : Nat) : Nat :=
  if h : pos < value.length then
    if isSpace (value.get ⟨pos, h⟩).toNat then skipSpacesFrom value (pos + 1) else pos
  else pos
termination_by value.length - pos

/-- Main loop of `tokenList`; the fuel always suffices because the TS loop
advances `pos` by at least one per iteration. -/
def tokenListAux (value : List Char) (offset : Int) :
    Nat → Nat → Nat → List (Int × Int) → List (Int × Int)
  | 0, pos, start, acc =>
      if start ≠ pos then acc ++ [(offset + start, offset + pos)] else acc
  | fuel + 1, pos, start, acc =>
      if h : pos < value.length then
        let ch := value.get ⟨pos, h⟩
        if isSpace ch.toNat then
          let acc := if start ≠ pos then acc ++ [(offset + start, offset + pos)] else acc
          let pos' := skipSpacesFrom value (pos + 1)
          tokenListAux value offset fuel pos' pos' acc
        else
          tokenListAux value offset fuel (pos + 1) start acc
      else
        if start ≠ pos then acc ++ [(offset + start, offset + pos)] else acc

/-- `tokenList` of `utils.ts`: ranges of space-separated words. -/
def tokenList (value : String) (offset : Int) : List (Int × Int) :=
  tokenListAux value.data offset value.data.length 0 0 []

/-- `pairs` of `utils.ts` as a partial map from opening to closing character. -/
def pairClose (c : Char) : Option Char :=
  if c = Char.ofNat 123 then some (Char.ofNat 125)
  else if c = Char.ofNat 91 then some (Char.ofNat 93)
  else if c = Char.ofNat 40 then some (Char.ofNat 41)
  else none

/-- `pairsEnd` of `utils.ts`. -/
def pairsEnd : List Char := [Char.ofNat 125, Char.ofNat 93, Char.ofNat 41]

/-- `isQuote` of `utils.ts`/`context.ts`. -/
def isQuoteCh (c : Char) : Bool :=
  c = Char.ofNat 34 || c = Char.ofNat 39

/-- `SelectItemModel` of `utils.ts`. -/
structure SelectItemModel where
  start : Int
  endPos : Int
  ranges : List (Int × Int)
deriving DecidableEq

/-! ## `src/css.ts` -/

/-- `CSSProperty`. -/
structure CSSProperty where
  name : Int × Int
  value : Int × Int
  valueTokens : List (Int × Int)
  before : Int
  after : Int
deriving DecidableEq

/-- `CSSSection` (with `end` renamed to `endPos`). -/
structure CSSSection where
  start : Int
  endPos : Int
  bodyStart : Int
  bodyEnd : Int
  properties : Option (List CSSProperty)
deriving DecidableEq

/-- Pooled `CSSTokenRange` triple `(start, end, delimiter)`; the pool itself is
an allocation optimization with no observable behavior and is not modelled. -/
abbrev CSSTokenRange : Type := Int × Int × Int

/-- Scan loop of `getCSSSection`: selector stack plus early exit. -/
def sectionLoop (pos : Int) :
    List CToken → List CSSTokenRange → Option (Int × Int × Int × Int)
  | [], _ => none
  | t :: rest, stack =>
    if t.start > pos ∧ stack = [] then none
    else if t.type = CTokenType.selector then
      sectionLoop pos rest (stack ++ [(t.start, t.endPos, t.delimiter)])
    else if t.type = CTokenType.blockEnd then
      match stack.getLast? with
      | some sel =>
        if sel.1 ≤ pos ∧ pos ≤ t.endPos then
          some (sel.1, t.endPos, sel.2.2 + 1, t.start)
        else sectionLoop pos rest stack.dropLast
      | none => sectionLoop pos rest stack
    else sectionLoop pos rest stack

/-- `createProperty` of `css.ts`. -/
def createProperty (env : Env) (code : String) (name : CSSTokenRange)
    (before start endP delimiter offset : Int) : CSSProperty :=
  { name := (offset + name.1, offset + name.2.1)
    value := (offset + start, offset + endP)
    valueTokens := env.splitValue (jsSubstringStr code start endP) (offset + start)
    before := before
    after := offset + delimiter + 1 }

/-- Scan loop of `parseProperties` (`pendingName`, `nested`, `before`). -/
def parsePropsLoop (env : Env) (fragment : String) (frm : Int) :
    List CToken → Option CSSTokenRange → Int → Int → List CSSProperty → List CSSProperty
  | [], _, _, _, acc => acc
  | t :: rest, pendingName, nested, before, acc =>
    if t.type = CTokenType.selector then
      parsePropsLoop env fragment frm rest pendingName (nested + 1) before acc
    else if t.type = CTokenType.blockEnd then
      parsePropsLoop env fragment frm rest pendingName (nested - 1) (frm + t.endPos) acc
    else if nested = 0 then
      if t.type = CTokenType.propertyName then
        match pendingName with
        | some pn =>
          let valuePos := pn.2.2
          let acc := acc ++ [createProperty env fragment pn before valuePos valuePos valuePos frm]
          parsePropsLoop env fragment frm rest
            (some (t.start, t.endPos, t.delimiter)) nested (frm + t.start) acc
        | none =>
          parsePropsLoop env fragment frm rest
            (some (t.start, t.endPos, t.delimiter)) nested before acc
      else
        match pendingName with
        | some pn =>
          let acc := acc ++ [createProperty env fragment pn before t.start t.endPos t.delimiter frm]
          parsePropsLoop env fragment frm rest none nested (frm + t.delimiter + 1) acc
        | none =>
          parsePropsLoop env fragment frm rest none nested (frm + t.delimiter + 1) acc
    else
      parsePropsLoop env fragment frm rest pendingName nested before acc

/-- `parseProperties(code, from, to)` of `css.ts`. -/
def parseProperties (env : Env) (code : String) (frm toP : Int) : List CSSProperty :=
  let fragment := jsSubstringStr code frm toP
  parsePropsLoop env fragment frm (env.scanCSS fragment) none 0 frm []

/-- `getCSSSection` of `css.ts`. -/
def getCSSSection (env : Env) (code : String) (pos : Int) (props : Bool) :
    Option CSSSection :=
  match sectionLoop pos (env.scanCSS code) [] with
  | none => none
  | some (s, e, bs, be) =>
    some { start := s, endPos := e, bodyStart := bs, bodyEnd := be,
           properties := if props then some (parseProperties env code bs be) else none }

/-- The Selection model built by `selectNextItem` (CSS) at a property-value
token, from the optional pending property-name triple. -/
def nextValueModel (env : Env) (code : String) (t : CToken)
    (pending : Option CSSTokenRange) : SelectItemModel :=
  let resEnd := if t.delimiter ≠ -1 then t.delimiter + 1 else t.endPos
  let resStart := match pending with
    | some pn => pn.1
    | none => t.start
  let rs : List (Int × Int) := match pending with
    | some pn => pushRange [] (pn.1, resEnd)
    | none => []
  let rs := pushRange rs (t.start, t.endPos)
  let rs := (env.splitValue (jsSubstringStr code t.start t.endPos) 0).foldl
    (fun acc r => pushRange acc (r.1 + t.start, r.2 + t.start)) rs
  { start := resStart, endPos := resEnd, ranges := rs }

/-- Scan loop of `selectNextItem` for CSS (`pendingProperty` accumulator);
the trailing `else` arm mirrors the TS `else if (pendingProperty)` branch. -/
def selectNextCSSLoop (env : Env) (code : String) (pos : Int) :
    List CToken → Option CSSTokenRange → Option SelectItemModel
  | [], _ => none
  | t :: rest, pending =>
    if t.start < pos then selectNextCSSLoop env code pos rest pending
    else if t.type = CTokenType.selector then
      some { start := t.start, endPos := t.endPos, ranges := [(t.start, t.endPos)] }
    else if t.type = CTokenType.propertyName then
      selectNextCSSLoop env code pos rest (some (t.start, t.endPos, t.delimiter))
    else if t.type = CTokenType.propertyValue then
      some (nextValueModel env code t pending)
    else
      pending.elim (selectNextCSSLoop env code pos rest pending)
        (fun pn => some { start := pn.1, endPos := pn.2.1, ranges := [(pn.1, pn.2.1)] })

/-- `selectNextItem` of `css.ts`. -/
def selectNextItemCSS (env : Env) (code : String) (pos : Int) : Option SelectItemModel :=
  selectNextCSSLoop env code pos (env.scanCSS code) none

/-- Accumulator state of `selectPreviousItem` for CSS. -/
structure PrevCSSState where
  type : Option CTokenType
  start : Int
  endP : Int
  valueStart : Int
  valueEnd : Int
  valueDelimiter : Int
deriving DecidableEq

/-- Scan loop of `selectPreviousItem` for CSS. -/
def prevCSSLoop (pos : Int) : List CToken → PrevCSSState → PrevCSSState
  | [], st => st
  | t :: rest, st =>
    if t.start ≥ pos ∧ t.type ≠ CTokenType.propertyValue then st
    else
      let st :=
        if t.type = CTokenType.selector ∨ t.type = CTokenType.propertyName then
          { type := some t.type, start := t.start, endP := t.endPos,
            valueStart := -1, valueEnd := -1, valueDelimiter := -1 }
        else if t.type = CTokenType.propertyValue then
          { st with valueStart := t.start, valueEnd := t.endPos, valueDelimiter := t.delimiter }
        else st
      prevCSSLoop pos rest st

/-- `selectPreviousItem` of `css.ts`. -/
def selectPreviousItemCSS (env : Env) (code : String) (pos : Int) : Option SelectItemModel :=
  let st := prevCSSLoop pos (env.scanCSS code)
    { type := none, start := -1, endP := -1, valueStart := -1, valueEnd := -1, valueDelimiter := -1 }
  match st.type with
  | some CTokenType.selector =>
    some { start := st.start, endPos := st.endP, ranges := [(st.start, st.endP)] }
  | some CTokenType.propertyName =>
    if st.valueStart ≠ -1 then
      let resEnd := if st.valueDelimiter ≠ -1 then st.valueDelimiter + 1 else st.valueEnd
      let rs := pushRange [] (st.start, resEnd)
      let rs := pushRange rs (st.valueStart, st.valueEnd)
      let rs := (env.splitValue (jsSubstringStr code st.valueStart st.valueEnd) 0).foldl
        (fun acc r => pushRange acc (r.1 + st.valueStart, r.2 + st.valueStart)) rs
      some { start := st.start, endPos := resEnd, ranges := rs }
    else
      some { start := st.start, endPos := st.endP, ranges := pushRange [] (st.start, st.endP) }
  | _ => none

/-- `selectItemCSS` of `css.ts`. -/
def selectItemCSS (env : Env) (code : String) (pos : Int) (isPrev : Bool) :
    Option SelectItemModel :=
  if isPrev then selectPreviousItemCSS env code pos else selectNextItemCSS env code pos

/-! ## `src/tracker.ts`: `updateRange` -/

/-- `updateRange(range, delta, lastPos)` of `tracker.ts`. -/
def updateRange (range : Int × Int) (delta : Int) (lastPos : Int) : Int × Int :=
  if delta < 0 then
    if lastPos = range.1 then (range.1 + delta, range.2 + delta)
    else if range.1 < lastPos ∧ lastPos ≤ range.2 then (range.1, range.2 + delta)
    else range
  else if delta > 0 ∧ range.1 ≤ lastPos ∧ lastPos ≤ range.2 then
    (range.1, range.2 + delta)
  else range

/-- C2: `updateRange` case analysis — removal at the range start shifts both
endpoints, removal strictly inside shrinks only the end, insertion inside or
at the bounds grows only the end, and every other combination leaves the
range unchanged. -/
theorem c2_updateRange_cases (a b delta lastPos : Int) (_hab : a ≤ b) :
    (delta < 0 → lastPos = a → updateRange (a, b) delta lastPos = (a + delta, b + delta)) ∧
    (delta < 0 → a < lastPos → lastPos ≤ b → updateRange (a, b) delta lastPos = (a, b + delta)) ∧
    (delta > 0 → a ≤ lastPos → lastPos ≤ b → updateRange (a, b) delta lastPos = (a, b + delta)) ∧
    (¬ (delta < 0 ∧ (lastPos = a ∨ (a < lastPos ∧ lastPos ≤ b))) →
     ¬ (delta > 0 ∧ a ≤ lastPos ∧ lastPos ≤ b) →
     updateRange (a, b) delta lastPos = (a, b)) := by
  refine ⟨?_, ?_, ?_, ?_⟩
  · intro hd hl
    simp [updateRange, hd, hl]
  · intro hd hl1 hl2
    have hne : lastPos ≠ a := ne_of_gt hl1
    simp [updateRange, hd, hne, hl1, hl2]
  · intro hd hl1 hl2
    have hnd : ¬ delta < 0 := by omega
    simp [updateRange, hnd, hd, hl1, hl2]
  · intro h1 h2
    unfold updateRange
    by_cases hd : delta < 0
    · have hne : lastPos ≠ a := by
        intro he
        exact h1 ⟨hd, Or.inl he⟩
      have hni : ¬ (a < lastPos ∧ lastPos ≤ b) := by
        intro hi
        exact h1 ⟨hd, Or.inr hi⟩
      simp [hd, hne, hni]
    · simp only [hd, if_false]
      have : ¬ (delta > 0 ∧ a ≤ lastPos ∧ lastPos ≤ b) := h2
      simp [this]

/-- Witness for C2 at a concrete input. -/
theorem c2_witness :
    (0 : Int) ≤ 3 ∧ updateRange (0, 3) (-1) 0 = (-1, 2) :=
  ⟨by decide, (c2_updateRange_cases 0 3 (-1) 0 (by decide)).1 (by decide) rfl⟩

/-! ## `src/html.ts` -/

/-- `ContextTag` (with optional parsed attributes). -/
structure ContextTag where
  name : String
  type : ElementType
  start : Int
  endPos : Int
  attributes : Option (List AttrToken)
deriving DecidableEq

/-- `shiftAttributeRanges` of `html.ts`: add the tag offset to every
attribute's name range, and to its value range when a value is present. -/
def shiftAttrToken (offset : Int) (a : AttrToken) : AttrToken :=
  { a with
    nameStart := a.nameStart + offset
    nameEnd := a.nameEnd + offset
    value := a.value.map fun v =>
      { v with valueStart := v.valueStart + offset, valueEnd := v.valueEnd + offset } }

/-- `shiftAttributeRanges` over a list. -/
def shiftAttributeRanges (attrs : List AttrToken) (offset : Int) : List AttrToken :=
  attrs.map (shiftAttrToken offset)

/-- Scan loop of `getOpenTag`: first token is inspected for strict
containment; any token ending past the position stops the scan. -/
def getOpenTagLoop (env : Env) (code : String) (pos : Int) :
    List HToken → Option ContextTag
  | [] => none
  | t :: rest =>
    if t.start < pos ∧ t.endPos > pos then
      some { name := t.name, type := t.type, start := t.start, endPos := t.endPos,
             attributes :=
               if t.type = ElementType.openTag ∨ t.type = ElementType.selfClose then
                 some (shiftAttributeRanges
                   (env.attrsOf (jsSliceStr code t.start t.endPos) t.name) t.start)
               else none }
    else if t.endPos > pos then none
    else getOpenTagLoop env code pos rest

/-- `getOpenTag` of `html.ts`. -/
def getOpenTag (env : Env) (code : String) (pos : Int) : Option ContextTag :=
  getOpenTagLoop env code pos (env.scanHTML code (createOptionsM env false false))

/-- `valueRange` of `html.ts`: unquoted/unbraced value range of an attribute
that has a value. -/
def valueRangeM (v : AttrValue) : Int × Int :=
  let ch := charAt? v.text 0
  let lastCh := charAt? v.text ((v.text.length : Int) - 1)
  if ch = some (Char.ofNat 34) ∨ ch = some (Char.ofNat 39) then
    (v.valueStart + 1, v.valueEnd - (if lastCh = ch then 1 else 0))
  else if ch = some (Char.ofNat 123) ∧ lastCh = some (Char.ofNat 125) then
    (v.valueStart + 1, v.valueEnd - 1)
  else
    (v.valueStart, v.valueEnd)

/-- Per-attribute range contributions of `getTagSelectionModel`. -/
def attrRangesStep (tagSrc : String) (start : Int)
    (rs : List (Int × Int)) (attr : AttrToken) : List (Int × Int) :=
  match attr.value with
  | some v =>
    let rs := pushRange rs (start + attr.nameStart, start + v.valueEnd)
    let vr := valueRangeM v
    if vr.1 ≠ vr.2 then
      let rs := pushRange rs (start + vr.1, start + vr.2)
      if attr.name = "class" then
        (tokenList (jsSliceStr tagSrc vr.1 vr.2) (start + vr.1)).foldl pushRange rs
      else rs
    else rs
  | none => pushRange rs (start + attr.nameStart, start + attr.nameEnd)

/-- `getTagSelectionModel` of `html.ts`. -/
def getTagSelectionModel (env : Env) (code name : String) (start endP : Int) :
    SelectItemModel :=
  let tagSrc := jsSliceStr code start endP
  let ranges := (env.attrsOf tagSrc name).foldl (attrRangesStep tagSrc start)
    [(start + 1, start + 1 + (name.length : Int))]
  { start := start, endPos := endP, ranges := ranges }

/-- Scan loop of `selectNextItem` for HTML. -/
def selectNextHTMLLoop (env : Env) (code : String) (pos : Int) :
    List HToken → Option SelectItemModel
  | [] => none
  | t :: rest =>
    if (t.type = ElementType.openTag ∨ t.type = ElementType.selfClose) ∧ t.endPos > pos then
      some (getTagSelectionModel env code t.name t.start t.endPos)
    else selectNextHTMLLoop env code pos rest

/-- `selectNextItem` of `html.ts`. -/
def selectNextItemHTML (env : Env) (code : String) (pos : Int) : Option SelectItemModel :=
  selectNextHTMLLoop env code pos (env.scanHTML code (createOptionsM env false false))

/-- Scan loop of `selectPreviousItem` for HTML: keep the last open or
self-closing tag starting strictly before the position. -/
def selectPrevHTMLLoop (pos : Int) :
    List HToken → Option (String × Int × Int) → Option (String × Int × Int)
  | [], accum => accum
  | t :: rest, accum =>
    if t.start ≥ pos then accum
    else if t.type = ElementType.openTag ∨ t.type = ElementType.selfClose then
      selectPrevHTMLLoop pos rest (some (t.name, t.start, t.endPos))
    else selectPrevHTMLLoop pos rest accum

/-- `selectPreviousItem` of `html.ts`. -/
def selectPreviousItemHTML (env : Env) (code : String) (pos : Int) :
    Option SelectItemModel :=
  match selectPrevHTMLLoop pos (env.scanHTML code (createOptionsM env false false)) none with
  | some (n, s, e) => some (getTagSelectionModel env code n s e)
  | none => none

/-- `selectItemHTML` of `html.ts`. -/
def selectItemHTML (env : Env) (code : String) (pos : Int) (isPrev : Bool) :
    Option SelectItemModel :=
  if isPrev then selectPreviousItemHTML env code pos else selectNextItemHTML env code pos

/-! ## `src/context.ts` -/

/-- Pooled `ScanItem` record of `context.ts` (pooling not modelled). -/
structure ScanItemC where
  name : String
  ctype : CTokenType
  start : Int
  endPos : Int
deriving DecidableEq

/-- Scan loop of `getCSSContext`: ancestor stack with push on
selector/property-name and pop on property-value/block-end; a token whose
range satisfies `start < pos ≤ end` becomes `current` and stops the scan. -/
def cssCtxLoop (code : String) (pos : Int) :
    List CToken → List ScanItemC → Option CSSMatch × List ScanItemC
  | [], stack => (none, stack)
  | t :: rest, stack =>
    if t.start ≥ pos then (none, stack)
    else if t.start < pos ∧ pos ≤ t.endPos then
      (some { name := jsSliceStr code t.start t.endPos, type := t.type,
              range := (t.start, t.endPos) }, stack)
    else
      match t.type with
      | CTokenType.selector =>
        cssCtxLoop code pos rest
          (stack ++ [{ name := jsSliceStr code t.start t.endPos, ctype := t.type,
                       start := t.start, endPos := t.endPos }])
      | CTokenType.propertyName =>
        cssCtxLoop code pos rest
          (stack ++ [{ name := jsSliceStr code t.start t.endPos, ctype := t.type,
                       start := t.start, endPos := t.endPos }])
      | CTokenType.propertyValue => cssCtxLoop code pos rest stack.dropLast
      | CTokenType.blockEnd => cssCtxLoop code pos rest stack.dropLast

/-- `getCSSContext` of `context.ts`. -/
def getCSSContext (env : Env) (code : String) (pos : Int)
    (embedded : Option (Int × Int)) : CSSContext :=
  let r := cssCtxLoop code pos (env.scanCSS code) []
  { ancestors := r.2.map fun i =>
      { name := i.name, type := i.ctype, range := (i.start, i.endPos) }
    current := r.1
    inline := false
    embedded := embedded }

/-- Pooled markup `ScanItem` record of `context.ts`. -/
structure ScanItemH where
  name : String
  start : Int
  endPos : Int
deriving DecidableEq

/-- `isSelfClose(name, options)` of `context.ts`. -/
def isSelfCloseM (name : String) (options : HtmlScanOpts) : Bool :=
  ¬ options.xml ∧ options.emptyElems.contains name

/-- The element type after the empty-element rewrite of `getHTMLContext`
(`Open` becomes `SelfClose` for void elements outside XML mode). -/
def effType (t : HToken) (options : HtmlScanOpts) : ElementType :=
  if t.type = ElementType.openTag ∧ isSelfCloseM t.name options then
    ElementType.selfClose
  else t.type

/-- Scan loop of `getHTMLContext`: open-element stack; a token whose range
satisfies `start < pos < end` becomes `current` and stops the scan. -/
def htmlCtxLoop (pos : Int) (options : HtmlScanOpts) :
    List HToken → List ScanItemH → Option HTMLMatch × List ScanItemH
  | [], stack => (none, stack)
  | t :: rest, stack =>
    if t.start ≥ pos then (none, stack)
    else if t.start < pos ∧ pos < t.endPos then
      (some { name := t.name, type := t.type, range := (t.start, t.endPos) }, stack)
    else
      if effType t options = ElementType.openTag then
        htmlCtxLoop pos options rest
          (stack ++ [{ name := t.name, start := t.start, endPos := t.endPos }])
      else if effType t options = ElementType.closeTag ∧
          (stack.getLast?.map ScanItemH.name) = some t.name then
        htmlCtxLoop pos options rest stack.dropLast
      else htmlCtxLoop pos options rest stack

/-- `attributeValueRange` of `context.ts` (quote-stripping variant). -/
def attributeValueRangeM (tag : String) (attr : AttrToken) (offset : Int) : Int × Int :=
  match attr.value with
  | some v =>
    let vs := v.valueStart
    let ve := v.valueEnd
    let vs := if (charAt? tag vs).any isQuoteCh then vs + 1 else vs
    let ve := if (charAt? tag (ve - 1)).any isQuoteCh ∧ ve > vs then ve - 1 else ve
    (offset + vs, offset + ve)
  | none =>
    -- unreachable: every caller checks `attr.value != null` first
    (offset, offset)

/-- `applyOffset` of `context.ts`: shift ancestor and current ranges. -/
def applyOffsetCSS (ctx : CSSContext) (offset : Int) : CSSContext :=
  { ctx with
    ancestors := ctx.ancestors.map fun a =>
      { a with range := (a.range.1 + offset, a.range.2 + offset) }
    current := ctx.current.map fun c =>
      { c with range := (c.range.1 + offset, c.range.2 + offset) } }

/-- The `attributes(...).some(...)` search of `detectCSSContextFromHTML`:
first `style` attribute with a value whose (unquoted) range contains `pos`. -/
def findStyleAttrRange (tag : String) (elemStart pos : Int) :
    List AttrToken → Option (Int × Int)
  | [] => none
  | a :: rest =>
    if a.name = "style" ∧ a.value.isSome then
      let vr := attributeValueRangeM tag a elemStart
      if vr.1 ≤ pos ∧ pos ≤ vr.2 then some vr
      else findStyleAttrRange tag elemStart pos rest
    else findStyleAttrRange tag elemStart pos rest

/-- The forward search for the first matching close tag in
`detectCSSContextFromHTML` (`<style>` branch). -/
def findCloseLoop (styleName : String) : List HToken → Option Int
  | [] => none
  | t :: rest =>
    if t.name = styleName ∧ t.type = ElementType.closeTag then some t.start
    else findCloseLoop styleName rest

/-- `detectCSSContextFromHTML` of `context.ts`. -/
def detectCSSContextFromHTML (env : Env) (code : String) (pos : Int)
    (ctx : HTMLContext) : Option CSSContext :=
  match ctx.current with
  | some elem =>
    if elem.type = ElementType.openTag ∨ elem.type = ElementType.closeTag then
      let tag := jsSliceStr code elem.range.1 elem.range.2
      match findStyleAttrRange tag elem.range.1 pos (env.attrsOf tag elem.name) with
      | some vr =>
        let c := getCSSContext env (jsSliceStr code vr.1 vr.2) (pos - vr.1) (some vr)
        some { applyOffsetCSS c vr.1 with inline := true }
      | none => none
    else none
  | none =>
    match ctx.ancestors.getLast? with
    | some parent =>
      if parent.name = "style" then
        let styleStart := parent.range.2
        let styleEnd := match findCloseLoop parent.name
            (env.scanHTML (jsSlice1 code styleStart) (createOptionsM env false false)) with
          | some s => s + styleStart
          | none => (code.length : Int)
        let c := getCSSContext env (jsSliceStr code styleStart styleEnd)
          (pos - styleStart) (some (styleStart, styleEnd))
        some (applyOffsetCSS c styleStart)
      else none
    | none => none

/-- `HTMLContextOptions`. -/
structure HTMLContextOptions where
  xml : Bool := false
  skipCSS : Bool := false

/-- `getHTMLContext` of `context.ts`. -/
def getHTMLContext (env : Env) (code : String) (pos : Int)
    (opt : HTMLContextOptions) : HTMLContext :=
  let options := createOptionsM env opt.xml true
  let r := htmlCtxLoop pos options (env.scanHTML code options) []
  let base : HTMLContext :=
    { ancestors := r.2.map fun i => { name := i.name, range := (i.start, i.endPos) }
      current := r.1
      css := none }
  if ¬ opt.skipCSS then
    { base with css := detectCSSContextFromHTML env code pos base }
  else base

/-! ## `src/tracker.ts`: data model -/

/-- Discriminated payload of `AbbreviationTracker`
(`AbbreviationTrackerValid` / `AbbreviationTrackerError`). -/
inductive TrackerPayload where
  | valid (simple : Bool) (preview : String)
  | error (e : AbbrError)
deriving DecidableEq

/-- `AbbreviationTracker`: shared base fields plus the tagged payload. -/
structure Tracker where
  range : Int × Int
  abbreviation : String
  forced : Bool
  offset : Int
  lastPos : Int
  lastLength : Int
  config : UserConfig
  payload : TrackerPayload
deriving DecidableEq

/-- `StartTrackingParams` (with the effective config already resolved). -/
structure StartTrackingParams where
  config : UserConfig
  offset : Int
  forced : Bool
deriving DecidableEq

/-- `StopTrackingParams`. -/
structure StopTrackingParams where
  skipRemove : Bool := false
  force : Bool := false
deriving DecidableEq

/-- The `EditorProxy` adapter, modelled as a structure of abstract
functions.  `substr()` with no arguments is the `content` field;
`mark`/`unmark`/`replace` are editor-side effects with no influence on the
controller state and are omitted.  `outputOptions(pos, inline?)` with an
absent `inline` is called with `false`. -/
structure Editor where
  id : String
  content : String
  substr : Int → Int → String
  size : Int
  syntaxName : String
  isJSX : String → Bool
  isCSS : String → Bool
  isHTML : String → Bool
  isXML : String → Bool
  allowTracking : Int → Bool
  config : Int → UserConfig
  outputOptions : Int → Bool → OutputOptions
  previewConfig : UserConfig → UserConfig
  syntaxType : String → SynType

/-- The three per-editor maps of `AbbreviationTrackingController`. -/
structure CtrlState where
  cache : List (String × Tracker)
  trackers : List (String × Tracker)
  lastPosMap : List (String × Int)
deriving DecidableEq

/-! ## `src/tracker.ts`: predicates and helpers -/

/-- ASCII letter test (`[a-zA-Z]` / `/^[a-z]/i`). -/
def isAsciiLetter (c : Char) : Bool :=
  ('a' ≤ c ∧ c ≤ 'z') ∨ ('A' ≤ c ∧ c ≤ 'Z')

/-- JS `\s` class membership (common whitespace code points). -/
def jsSpace (c : Char) : Bool :=
  c = ' ' ∨ c = Char.ofNat 9 ∨ c = Char.ofNat 10 ∨ c = Char.ofNat 13 ∨
  c = Char.ofNat 11 ∨ c = Char.ofNat 12 ∨ c = Char.ofNat 160 ∨
  c = Char.ofNat 0x2028 ∨ c = Char.ofNat 0x2029 ∨ c = Char.ofNat 0xFEFF

/-- Character class of `reJSXAbbrStart` (`/^[a-zA-Z.#\[\(]$/`). -/
def reJSXAbbrStartCh (c : Char) : Bool :=
  isAsciiLetter c ∨ c = '.' ∨ c = '#' ∨ c = Char.ofNat 91 ∨ c = Char.ofNat 40

/-- First (optional) class of `reWordBound` (`[\s>;"\']`). -/
def wordBoundFirst (c : Char) : Bool :=
  jsSpace c ∨ c = '>' ∨ c = ';' ∨ c = Char.ofNat 34 ∨ c = Char.ofNat 39

/-- Second class of `reWordBound` (`[a-zA-Z.#!@\[\(]`). -/
def wordBoundSecond (c : Char) : Bool :=
  isAsciiLetter c ∨ c = '.' ∨ c = '#' ∨ c = '!' ∨ c = '@' ∨
  c = Char.ofNat 91 ∨ c = Char.ofNat 40

/-- `reWordBound.test` (`/^[\s>;"\']?[a-zA-Z.#!@\[\(]$/`). -/
def reWordBoundTest (s : String) : Bool :=
  match s.data with
  | [c] => wordBoundSecond c
  | [b, c] => wordBoundFirst b ∧ wordBoundSecond c
  | _ => false

/-- First (optional) class of `reStylesheetWordBound` (`[\s;"\']`). -/
def styleBoundFirst (c : Char) : Bool :=
  jsSpace c ∨ c = ';' ∨ c = Char.ofNat 34 ∨ c = Char.ofNat 39

/-- Second class of `reStylesheetWordBound` (`[a-zA-Z!@]`). -/
def styleBoundSecond (c : Char) : Bool :=
  isAsciiLetter c ∨ c = '!' ∨ c = '@'

/-- `reStylesheetWordBound.test` (`/^[\s;"\']?[a-zA-Z!@]$/`). -/
def reStylesheetWordBoundTest (s : String) : Bool :=
  match s.data with
  | [c] => styleBoundSecond c
  | [b, c] => styleBoundFirst b ∧ styleBoundSecond c
  | _ => false

/-- `/[\r\n]/.test` on the abbreviation text. -/
def hasLineBreak (s : String) : Bool :=
  s.data.any fun c => c = Char.ofNat 13 ∨ c = Char.ofNat 10

/-- `/^:\s*;?$/.test` of the section-suppression check. -/
def colonSpacesSemi (s : String) : Bool :=
  match s.data with
  | c :: rest =>
    if c = ':' then
      let r := rest.dropWhile jsSpace
      r = [] ∨ r = [';']
    else false
  | [] => false

/-- `isSimpleMarkupAbbreviation` of `tracker.ts` (`!first.name` is true for
an absent or empty name). -/
def isSimpleMarkupAbbreviation (abbr : MAbbr) : Bool :=
  match abbr.children with
  | [first] =>
    if first.children.isEmpty then
      match first.name with
      | none => true
      | some n =>
        n = "" ∨ (charAt? n 0).any isAsciiLetter
    else false
  | l => l.isEmpty

/-- The backward walk of `isValidTracker` over trailing closing-pair
characters; the fuel bounds the loop (each step decrements `targetPos`,
which stays above `start`). -/
def walkBackPairs (abbr : String) (start : Int) : Nat → Int → Int
  | 0, tp => tp
  | fuel + 1, tp =>
    if tp > start ∧ (charAt? abbr (tp - start - 1)).any (pairsEnd.contains ·) then
      walkBackPairs abbr start fuel (tp - 1)
    else tp

/-- `isValidTracker` of `tracker.ts`. -/
def isValidTracker (t : Tracker) (range : Int × Int) (pos : Int) : Bool :=
  match t.payload with
  | TrackerPayload.error _ =>
    if range.2 = pos then false
    else walkBackPairs t.abbreviation range.1 (range.2 - range.1).toNat range.2 ≠ pos
  | TrackerPayload.valid _ _ => true

/-! ## `src/tracker.ts`: the controller -/

/-- The abbreviation text extracted by `createTracker`:
`editor.substr(range).slice(offset)` (slice applied only for truthy offset). -/
def trackerText (editor : Editor) (range : Int × Int) (offset : Int) : String :=
  let a := editor.substr range.1 range.2
  if offset ≠ 0 then jsSlice1 a offset else a

/-- The `try` body of `createTracker`: parse the abbreviation as the
configured kind and render a preview; any thrown error becomes the
`Error`-tracker payload. -/
def parseAttempt (env : Env) (editor : Editor) (abbr : String) (config : UserConfig) :
    Except AbbrError TrackerPayload :=
  if config.type = SynType.stylesheet then
    match env.stylesheetAbbreviation abbr with
    | Except.error e => Except.error e
    | Except.ok p =>
      match env.expandStylesheet p (editor.previewConfig config) with
      | Except.error e => Except.error e
      | Except.ok pv => Except.ok (TrackerPayload.valid false pv)
  else
    match env.markupAbbreviation abbr (config.syntaxName = "jsx") with
    | Except.error e => Except.error e
    | Except.ok p =>
      match env.expandMarkup p (editor.previewConfig config) with
      | Except.error e => Except.error e
      | Except.ok pv => Except.ok (TrackerPayload.valid (isSimpleMarkupAbbreviation p) pv)

/-- `createTracker` of `tracker.ts`. -/
def createTracker (env : Env) (editor : Editor) (range : Int × Int)
    (params : StartTrackingParams) : Option Tracker :=
  if range.1 ≥ range.2 then none
  else if trackerText editor range params.offset = "" ∨
      hasLineBreak (trackerText editor range params.offset) then none
  else
    some { range := range
           abbreviation := trackerText editor range params.offset
           forced := params.forced
           offset := params.offset
           lastPos := range.2
           lastLength := editor.size
           config := params.config
           payload :=
             match parseAttempt env editor (trackerText editor range params.offset)
                 params.config with
             | Except.ok p => p
             | Except.error e => TrackerPayload.error e }

/-- `startTracking` of the controller. -/
def startTracking (env : Env) (editor : Editor) (st : CtrlState)
    (start pos : Int) (config? : Option UserConfig) (offset : Int) (forced : Bool) :
    Option Tracker × CtrlState :=
  let config := config?.getD (editor.config start)
  match createTracker env editor (start, pos)
      { config := config, offset := offset, forced := forced } with
  | some t => (some t, { st with trackers := setK st.trackers editor.id t })
  | none => (none, { st with trackers := delK st.trackers editor.id })

/-- `stopTracking` of the controller (`editor.unmark`/`editor.replace` are
editor-side effects outside the controller state). -/
def stopTracking (editor : Editor) (st : CtrlState) (params : StopTrackingParams) :
    CtrlState :=
  match getK st.trackers editor.id with
  | none => st
  | some t =>
    let st := if params.force then { st with cache := delK st.cache editor.id }
      else { st with cache := setK st.cache editor.id t }
    { st with trackers := delK st.trackers editor.id }

/-- `isTypingBeforeSelector` of the controller. -/
def isTypingBeforeSelector (editor : Editor) (pos : Int) (ctx : CSSContext) : Bool :=
  match ctx.current with
  | some cur =>
    if cur.type = CTokenType.selector ∧ cur.range.1 = pos - 1 then
      let line := ((editor.substr cur.range.1 cur.range.2).data.takeWhile
        fun c => c ≠ Char.ofNat 10 ∧ c ≠ Char.ofNat 13).asString
      line.trim.length = 1
    else false
  | none => false

/-- `getCSSActivationContext` of the controller. -/
def getCSSActivationContext (env : Env) (editor : Editor) (pos : Int)
    (syn : String) (ctx : CSSContext) : Option UserConfig :=
  match ctx.current with
  | none => none
  | some cur =>
    if cur.type = CTokenType.propertyName ∨ cur.type = CTokenType.propertyValue ∨
        isTypingBeforeSelector editor pos ctx then
      some { syntaxName := syn, type := SynType.stylesheet,
             context := some (env.getStylesheetAbbreviationContext ctx),
             options := some (editor.outputOptions pos ctx.inline) }
    else none

/-- `getActivationContext` of the controller. -/
def getActivationContext (env : Env) (editor : Editor) (pos : Int) :
    Option UserConfig :=
  let syn := editor.syntaxName
  let content := editor.content
  if editor.isCSS syn then
    getCSSActivationContext env editor pos syn (getCSSContext env content pos none)
  else if editor.isHTML syn then
    let ctx := getHTMLContext env content pos { xml := editor.isXML syn }
    match ctx.css with
    | some cssCtx =>
      let emb := match env.getEmbeddedStyleSyntax content ctx with
        | some s => if s = "" then "css" else s
        | none => "css"
      getCSSActivationContext env editor pos emb cssCtx
    | none =>
      if ctx.current = none then
        some { syntaxName := syn, type := SynType.markup,
               context := env.getMarkupAbbreviationContext content ctx,
               options := some (editor.outputOptions pos false) }
      else none
  else
    some { syntaxName := syn, type := editor.syntaxType syn,
           context := none, options := none }

/-- The paired-character extension of the tentative end position in
`typingAbbreviation` (`if (lastCh in pairs && ...) end++`). -/
def typingEndPos (editor : Editor) (pfx : String) (pos : Int) : Int :=
  match charAt? pfx ((pfx.length : Int) - 1) with
  | some lastCh =>
    match pairClose lastCh with
    | some closing =>
      if editor.substr pos (pos + 1) = String.mk [closing] then pos + 1 else pos
    | none => pos
  | none => pos

/-- Body of `typingAbbreviation` once the tentative start and prefix offset
have been computed from the word-bound tests. -/
def typingAbbreviationGo (env : Env) (editor : Editor) (st : CtrlState) (pos : Int)
    (pfx : String) (start offset : Int) : Option Tracker × CtrlState :=
  if start ≥ 0 then
    match getActivationContext env editor pos with
    | none => (none, st)
    | some config =>
      if config.type = SynType.stylesheet ∧ ¬ reStylesheetWordBoundTest pfx then
        (none, st)
      else
        match startTracking env editor st start (typingEndPos editor pfx pos)
            (some config) offset false with
        | (some t, st1) =>
          match t.payload with
          | TrackerPayload.valid _ preview =>
            if (config.context.map AbbrCtx.name) = some cssScopeSection ∧
                strStartsWith preview t.abbreviation ∧
                colonSpacesSemi (jsSlice1 preview t.abbreviation.length) then
              (none, stopTracking editor st1 {})
            else (some t, st1)
          | TrackerPayload.error _ => (some t, st1)
        | (none, st1) => (none, st1)
  else (none, st)

/-- `typingAbbreviation` of the controller. -/
def typingAbbreviation (env : Env) (editor : Editor) (st : CtrlState) (pos : Int) :
    Option Tracker × CtrlState :=
  let pfx := editor.substr (max 0 (pos - 2)) pos
  let syn := editor.syntaxName
  let startOffset : Int × Int :=
    if editor.isJSX syn then
      if pfx.length = 2 ∧ charAt? pfx 0 = some '<' ∧ (charAt? pfx 1).any reJSXAbbrStartCh then
        (pos - 2, 1)
      else (-1, 0)
    else if reWordBoundTest pfx then (pos - 1, 0)
    else (-1, 0)
  typingAbbreviationGo env editor st pos pfx startOffset.1 startOffset.2

/-- `restoreTracker` of the controller. -/
def restoreTracker (editor : Editor) (st : CtrlState) (pos : Int) :
    Option Tracker × CtrlState :=
  match getK st.cache editor.id with
  | none => (none, st)
  | some t =>
    if t.range.1 ≤ pos ∧ t.range.2 ≥ pos then
      let st := { st with cache := delK st.cache editor.id }
      if editor.substr (t.range.1 + t.offset) t.range.2 = t.abbreviation then
        (some t, { st with trackers := setK st.trackers editor.id t })
      else (none, st)
    else (none, st)

/-- `handleChange` of the controller. -/
def handleChange (env : Env) (editor : Editor) (st : CtrlState) (pos : Int) :
    Option Tracker × CtrlState :=
  let tracker? := getK st.trackers editor.id
  let editorLastPos := getK st.lastPosMap editor.id
  let st := { st with lastPosMap := setK st.lastPosMap editor.id pos }
  match tracker? with
  | none =>
    if editorLastPos = some (pos - 1) ∧ editor.allowTracking pos then
      typingAbbreviation env editor st pos
    else (none, st)
  | some tracker =>
    if tracker.lastPos < tracker.range.1 ∨ tracker.lastPos > tracker.range.2 then
      (none, stopTracking editor st {})
    else
      let delta := editor.size - tracker.lastLength
      let range := updateRange tracker.range delta tracker.lastPos
      if range.1 = range.2 ∧ tracker.forced then
        let t' := { tracker with abbreviation := "" }
        (some t', { st with trackers := setK st.trackers editor.id t' })
      else
        match createTracker env editor range
            { config := tracker.config, offset := tracker.offset, forced := tracker.forced } with
        | none => (none, stopTracking editor st {})
        | some next =>
          if ¬ tracker.forced ∧ ¬ isValidTracker next range pos then
            (none, stopTracking editor st {})
          else
            let next := { next with lastPos := pos }
            (some next, { st with trackers := setK st.trackers editor.id next })

/-- `handleSelectionChange` of the controller (the `tracker.lastPos = pos`
mutation is visible both in the returned tracker and in the map). -/
def handleSelectionChange (_env : Env) (editor : Editor) (st : CtrlState) (pos : Int) :
    Option Tracker × CtrlState :=
  let st := { st with lastPosMap := setK st.lastPosMap editor.id pos }
  match getK st.trackers editor.id with
  | some t =>
    let t' := { t with lastPos := pos }
    (some t', { st with trackers := setK st.trackers editor.id t' })
  | none =>
    match restoreTracker editor st pos with
    | (some t, st1) =>
      let t' := { t with lastPos := pos }
      (some t', { st1 with trackers := setK st1.trackers editor.id t' })
    | (none, st1) => (none, st1)

/-! ## Well-formedness of scanner token streams

The external scanners are trusted collaborators; theorems that depend on the
shape of their output state the assumptions explicitly:
* every token's range is well formed (`start ≤ end`),
* tokens arrive in document order without overlap, where a selector token
  extends up to (and including) its `{` delimiter. -/

/-- Upper document bound of a stylesheet token (selectors own their `{`). -/
def upperB (t : CToken) : Int :=
  if t.type = CTokenType.selector then t.delimiter + 1 else t.endPos

/-- Per-token well-formedness for stylesheet tokens. -/
def cTokOk (t : CToken) : Prop :=
  t.start ≤ t.endPos ∧ (t.type = CTokenType.selector → t.endPos ≤ t.delimiter)

instance (t : CToken) : Decidable (cTokOk t) := by
  unfold cTokOk
  infer_instance

/-- Document order of a stylesheet token stream. -/
def cssOrdered (l : List CToken) : Prop :=
  l.Pairwise fun a b => upperB a ≤ b.start

instance (l : List CToken) : Decidable (cssOrdered l) := by
  unfold cssOrdered
  infer_instance

/-- The claimed `ranges` invariant of a Selection model: no entry is empty
and no two consecutive entries are identical. -/
def noEmptyDup : List (Int × Int) → Bool
  | [] => true
  | [r] => decide (r.1 ≠ r.2)
  | r :: r' :: rest => (decide (r.1 ≠ r.2) && decide (r ≠ r')) && noEmptyDup (r' :: rest)

/-! ## Concrete instances used by witnesses and counterexamples -/

/-- A minimal oracle environment (all scanners empty, parsers failing). -/
def envBase : Env where
  scanHTML := fun _ _ => []
  scanCSS := fun _ => []
  attrsOf := fun _ _ => []
  splitValue := fun _ _ => []
  defaultSpecial := []
  emptyElems := []
  stylesheetAbbreviation := fun _ => Except.error { message := "err", pos := 0 }
  markupAbbreviation := fun _ _ => Except.error { message := "err", pos := 0 }
  expandStylesheet := fun _ _ => Except.ok ""
  expandMarkup := fun _ _ => Except.ok ""
  getEmbeddedStyleSyntax := fun _ _ => none
  getMarkupAbbreviationContext := fun _ _ => none
  getStylesheetAbbreviationContext := fun _ => { name := "ctx" }

/-- A concrete markup `UserConfig`. -/
def configW : UserConfig :=
  { syntaxName := "html", type := SynType.markup, context := none, options := none }

/-- A concrete editor adapter. -/
def edW : Editor where
  id := "e"
  content := ""
  substr := fun _ _ => ""
  size := 10
  syntaxName := "html"
  isJSX := fun _ => false
  isCSS := fun _ => false
  isHTML := fun _ => false
  isXML := fun _ => false
  allowTracking := fun _ => true
  config := fun _ => configW
  outputOptions := fun _ _ => { tag := 0 }
  previewConfig := fun c => c
  syntaxType := fun _ => SynType.markup

/-- A concrete valid tracker over range `[0, 2)` with `lastPos = 2`. -/
def trackerW : Tracker :=
  { range := (0, 2), abbreviation := "ab", forced := false, offset := 0,
    lastPos := 2, lastLength := 10, config := configW,
    payload := TrackerPayload.valid false "prev" }

/-- Controller state with `trackerW` active for editor `"e"`. -/
def stW : CtrlState := { cache := [], trackers := [("e", trackerW)], lastPosMap := [] }

/-- The empty controller state. -/
def st0 : CtrlState := { cache := [], trackers := [], lastPosMap := [] }

/-- Environment whose markup scanner yields one open tag `[0, 3)` named `b`. -/
def envC3 : Env :=
  { envBase with scanHTML := fun s _ =>
      if s = "<b>x" then [{ name := "b", type := ElementType.openTag, start := 0, endPos := 3 }]
      else [] }

/-- The tag `getOpenTag` finds in `envC3` at position 1. -/
def tagC3 : ContextTag :=
  { name := "b", type := ElementType.openTag, start := 0, endPos := 3, attributes := some [] }

/-- Environment for the C4 witness: token stream of `a{b:c}`. -/
def envC4 : Env :=
  { envBase with scanCSS := fun s =>
      if s = "a\x7bb:c\x7d" then
        [{ type := CTokenType.selector, start := 0, endPos := 1, delimiter := 1 },
         { type := CTokenType.propertyName, start := 2, endPos := 3, delimiter := 3 },
         { type := CTokenType.propertyValue, start := 4, endPos := 5, delimiter := -1 },
         { type := CTokenType.blockEnd, start := 5, endPos := 6, delimiter := -1 }]
      else [] }

/-- Environment for the C5 witness: one selector token `[0, 2)`. -/
def envC5 : Env :=
  { envBase with scanCSS := fun s =>
      if s = "ab" then [{ type := CTokenType.selector, start := 0, endPos := 2, delimiter := 2 }]
      else [] }

/-- Source of the C6 counterexample: `div{color;background:red}` (a
declaration without a value followed by a normal declaration). -/
def codeC6 : String := "div\x7bcolor;background:red\x7d"

/-- Body fragment of `codeC6` between the braces. -/
def fragC6 : String := "color;background:red"

/-- Environment for the C6 counterexample.  In the full source, `color` is a
property name with its `;` delimiter at offset 9 (fragment offset 5) and
`background` is the next property name starting at offset 10 (fragment
offset 6) with its `:` at 20 (fragment 16). -/
def envC6 : Env :=
  { envBase with scanCSS := fun s =>
      if s = codeC6 then
        [{ type := CTokenType.selector, start := 0, endPos := 3, delimiter := 3 },
         { type := CTokenType.propertyName, start := 4, endPos := 9, delimiter := 9 },
         { type := CTokenType.propertyName, start := 10, endPos := 20, delimiter := 20 },
         { type := CTokenType.propertyValue, start := 21, endPos := 24, delimiter := -1 },
         { type := CTokenType.blockEnd, start := 24, endPos := 25, delimiter := -1 }]
      else if s = fragC6 then
        [{ type := CTokenType.propertyName, start := 0, endPos := 5, delimiter := 5 },
         { type := CTokenType.propertyName, start := 6, endPos := 16, delimiter := 16 },
         { type := CTokenType.propertyValue, start := 17, endPos := 20, delimiter := -1 }]
      else [] }

/-- Source of the C7 counterexample: `a{color:` (stream ends right after the
property-name token, no value follows). -/
def codeC7 : String := "a\x7bcolor:"

/-- Environment for the C7 counterexample. -/
def envC7 : Env :=
  { envBase with scanCSS := fun s =>
      if s = codeC7 then
        [{ type := CTokenType.selector, start := 0, endPos := 1, delimiter := 1 },
         { type := CTokenType.propertyName, start := 2, endPos := 7, delimiter := 7 }]
      else [] }

/-- Environment for the C9 counterexample: one selector token `[0, 2)`. -/
def envC9 : Env :=
  { envBase with scanCSS := fun s =>
      if s = "ab" then [{ type := CTokenType.selector, start := 0, endPos := 2, delimiter := 2 }]
      else [] }

/-- Editor for the C8 witness: the tracked range reads back as `"ab"` and the
configured syntax is a stylesheet dialect. -/
def configC8 : UserConfig :=
  { syntaxName := "css", type := SynType.stylesheet, context := none, options := none }

/-- Editor whose `substr` always yields `"ab"`. -/
def edC8 : Editor := { edW with substr := fun _ _ => "ab", syntaxName := "css" }

/-! ## Helper lemmas -/

theorem getLast?_mem_own {α : Type} : ∀ (l : List α) (a : α), l.getLast? = some a → a ∈ l
  | [], a, h => by simp at h
  | [b], a, h => by
      simp only [List.getLast?_singleton, Option.some.injEq] at h
      simp [h]
  | b :: c :: t, a, h => by
      rw [List.getLast?_cons_cons] at h
      exact List.mem_cons_of_mem b (getLast?_mem_own (c :: t) a h)

theorem mem_of_mem_dropLast_own {α : Type} : ∀ (l : List α) (a : α), a ∈ l.dropLast → a ∈ l
  | [], a, h => by simp at h
  | [b], a, h => by simp [List.dropLast] at h
  | b :: c :: t, a, h => by
      simp only [List.dropLast_cons₂, List.mem_cons] at h
      rcases h with h | h
      · simp [h]
      · exact List.mem_cons_of_mem b (mem_of_mem_dropLast_own (c :: t) a h)

/-! ## C3: `getOpenTag` -/

theorem getOpenTagLoop_some (env : Env) (code : String) (pos : Int) :
    ∀ (l : List HToken) (tag : ContextTag), getOpenTagLoop env code pos l = some tag →
      tag.start < pos ∧ pos < tag.endPos ∧
      tag.attributes =
        (if tag.type = ElementType.openTag ∨ tag.type = ElementType.selfClose then
          some (shiftAttributeRanges
            (env.attrsOf (jsSliceStr code tag.start tag.endPos) tag.name) tag.start)
        else none)
  | [], tag, h => by simp [getOpenTagLoop] at h
  | t :: rest, tag, h => by
      rw [getOpenTagLoop] at h
      split at h
      · next hc =>
        injection h with h'
        subst h'
        exact ⟨hc.1, hc.2, rfl⟩
      · split at h
        · exact absurd h (by simp)
        · exact getOpenTagLoop_some env code pos rest tag h

theorem getOpenTagLoop_none (env : Env) (code : String) (pos : Int) :
    ∀ (l : List HToken), (∀ t ∈ l, ¬ (t.start < pos ∧ pos < t.endPos)) →
      getOpenTagLoop env code pos l = none
  | [], _ => by simp [getOpenTagLoop]
  | t :: rest, h => by
      rw [getOpenTagLoop]
      have ht := h t (List.mem_cons_self t rest)
      split
      · next hc => exact absurd ⟨hc.1, hc.2⟩ ht
      · split
        · rfl
        · exact getOpenTagLoop_none env code pos rest
            (fun u hu => h u (List.mem_cons_of_mem t hu))

/-- C3: `getOpenTag` returns a tag only under strict containment
`start < pos < end`; when no scanned token strictly contains the position it
returns nothing; and an open/self-closing result carries the attributes of
the tag substring with ranges shifted by the tag start (a result of any
other kind carries none). -/
theorem c3_getOpenTag (env : Env) (code : String) (pos : Int) :
    (∀ tag, getOpenTag env code pos = some tag →
      tag.start < pos ∧ pos < tag.endPos ∧
      ((tag.type = ElementType.openTag ∨ tag.type = ElementType.selfClose) →
        tag.attributes = some (shiftAttributeRanges
          (env.attrsOf (jsSliceStr code tag.start tag.endPos) tag.name) tag.start)) ∧
      (¬ (tag.type = ElementType.openTag ∨ tag.type = ElementType.selfClose) →
        tag.attributes = none)) ∧
    ((∀ t ∈ env.scanHTML code (createOptionsM env false false),
        ¬ (t.start < pos ∧ pos < t.endPos)) →
      getOpenTag env code pos = none) := by
  constructor
  · intro tag h
    obtain ⟨h1, h2, h3⟩ := getOpenTagLoop_some env code pos _ tag h
    refine ⟨h1, h2, ?_, ?_⟩
    · intro hty
      rw [h3, if_pos hty]
    · intro hty
      rw [h3, if_neg hty]
  · intro hall
    exact getOpenTagLoop_none env code pos _ hall

/-- Witness for C3: a concrete scan with one open tag containing position 1. -/
theorem c3_witness :
    tagC3.start < 1 ∧ (1 : Int) < tagC3.endPos ∧
    ((tagC3.type = ElementType.openTag ∨ tagC3.type = ElementType.selfClose) →
      tagC3.attributes = some (shiftAttributeRanges
        (envC3.attrsOf (jsSliceStr "<b>x" tagC3.start tagC3.endPos) tagC3.name) tagC3.start)) ∧
    (¬ (tagC3.type = ElementType.openTag ∨ tagC3.type = ElementType.selfClose) →
      tagC3.attributes = none) :=
  (c3_getOpenTag envC3 "<b>x" 1).1 tagC3 (by decide)

/-! ## C10: `handleChange` with no active tracker -/

/-- C10: with no active tracker for the editor, `handleChange` starts a
tracker only if a last caret position was recorded and equals `pos - 1`; in
every other case (including the very first observed change, when no last
position exists) it returns nothing and leaves the active-tracker map
untouched. -/
theorem c10_handleChange_no_tracker (env : Env) (editor : Editor) (st : CtrlState)
    (pos : Int)
    (h1 : getK st.trackers editor.id = none)
    (h2 : ∀ lp, getK st.lastPosMap editor.id = some lp → lp ≠ pos - 1) :
    (handleChange env editor st pos).1 = none ∧
    (handleChange env editor st pos).2.trackers = st.trackers := by
  have hne : ¬ (getK st.lastPosMap editor.id = some (pos - 1) ∧
      editor.allowTracking pos = true) := by
    rintro ⟨hl, _⟩
    exact h2 _ hl rfl
  rw [handleChange, h1]
  simp only
  rw [if_neg hne]
  exact ⟨rfl, rfl⟩

/-- Witness for C10: the empty controller state (no recorded last caret). -/
theorem c10_witness :
    (handleChange envBase edW st0 5).1 = none ∧
    (handleChange envBase edW st0 5).2.trackers = st0.trackers :=
  c10_handleChange_no_tracker envBase edW st0 5 rfl
    (fun lp h => by simp [st0, getK] at h)

/-! ## C9: straddle conditions of the two context resolvers -/

theorem cssCtxLoop_sound (code : String) (pos : Int) :
    ∀ (l : List CToken) (stack : List ScanItemC),
      (∀ i ∈ stack, i.endPos < pos) →
      (∀ m, (cssCtxLoop code pos l stack).1 = some m →
        m.range.1 < pos ∧ pos ≤ m.range.2) ∧
      (∀ i ∈ (cssCtxLoop code pos l stack).2, i.endPos < pos)
  | [], stack, hs => by
      rw [cssCtxLoop]
      exact ⟨by intro m h; simp at h, hs⟩
  | t :: rest, stack, hs => by
      rw [cssCtxLoop]
      split
      · exact ⟨by intro m h; simp at h, hs⟩
      · split
        · next hc =>
          refine ⟨?_, hs⟩
          intro m h
          injection h with h'
          subst h'
          exact ⟨hc.1, hc.2⟩
        · next hge hc =>
          have hlt : t.start < pos := by omega
          have hend : t.endPos < pos := by
            by_contra hn
            exact hc ⟨hlt, by omega⟩
          have hpush : ∀ i ∈ stack ++
              [ScanItemC.mk (jsSliceStr code t.start t.endPos) t.type t.start t.endPos],
              i.endPos < pos := by
            intro i hi
            rcases List.mem_append.mp hi with h | h
            · exact hs i h
            · simp only [List.mem_singleton] at h
              subst h
              exact hend
          have hdrop : ∀ i ∈ stack.dropLast, i.endPos < pos :=
            fun i hi => hs i (mem_of_mem_dropLast_own stack i hi)
          cases t with
          | mk tty tstart tend tdel =>
            cases tty
            · exact cssCtxLoop_sound code pos rest _ hpush
            · exact cssCtxLoop_sound code pos rest _ hpush
            · exact cssCtxLoop_sound code pos rest _ hdrop
            · exact cssCtxLoop_sound code pos rest _ hdrop

theorem htmlCtxLoop_sound (pos : Int) (options : HtmlScanOpts) :
    ∀ (l : List HToken) (stack : List ScanItemH),
      (∀ i ∈ stack, i.endPos ≤ pos) →
      (∀ m, (htmlCtxLoop pos options l stack).1 = some m →
        m.range.1 < pos ∧ pos < m.range.2) ∧
      (∀ i ∈ (htmlCtxLoop pos options l stack).2, i.endPos ≤ pos)
  | [], stack, hs => by
      rw [htmlCtxLoop]
      exact ⟨by intro m h; simp at h, hs⟩
  | t :: rest, stack, hs => by
      rw [htmlCtxLoop]
      split
      · exact ⟨by intro m h; simp at h, hs⟩
      · split
        · next hc =>
          refine ⟨?_, hs⟩
          intro m h
          injection h with h'
          subst h'
          exact ⟨hc.1, hc.2⟩
        · next hge hc =>
          have hlt : t.start < pos := by omega
          have hend : t.endPos ≤ pos := by
            by_contra hn
            exact hc ⟨hlt, by omega⟩
          have hpush : ∀ i ∈ stack ++ [ScanItemH.mk t.name t.start t.endPos],
              i.endPos ≤ pos := by
            intro i hi
            rcases List.mem_append.mp hi with h | h
            · exact hs i h
            · simp only [List.mem_singleton] at h
              subst h
              exact hend
          split
          · exact htmlCtxLoop_sound pos options rest _ hpush
          · split
            · exact htmlCtxLoop_sound pos options rest _
                (fun i hi => hs i (mem_of_mem_dropLast_own stack i hi))
            · exact htmlCtxLoop_sound pos options rest _ hs

/-- C9 (amended): the stylesheet resolver records `current` under
`start < pos ≤ end`, while the markup resolver uses the strict
`start < pos < end`; in both resolvers every ancestor's range ends at or
before the position, so the straddled token is never a member of the
ancestor stack. -/
theorem c9_straddle_conditions (env : Env) (code : String) (pos : Int)
    (emb : Option (Int × Int)) (opt : HTMLContextOptions) :
    (∀ m, (getCSSContext env code pos emb).current = some m →
      m.range.1 < pos ∧ pos ≤ m.range.2) ∧
    (∀ m, (getHTMLContext env code pos opt).current = some m →
      m.range.1 < pos ∧ pos < m.range.2) ∧
    (∀ m a, (getCSSContext env code pos emb).current = some m →
      a ∈ (getCSSContext env code pos emb).ancestors →
      a.range.2 < pos ∧ a.range ≠ m.range) ∧
    (∀ m a, (getHTMLContext env code pos opt).current = some m →
      a ∈ (getHTMLContext env code pos opt).ancestors →
      a.range.2 ≤ pos ∧ a.range ≠ m.range) := by
  have hcss := cssCtxLoop_sound code pos (env.scanCSS code) [] (by simp)
  have hhtml := htmlCtxLoop_sound pos (createOptionsM env opt.xml true)
    (env.scanHTML code (createOptionsM env opt.xml true)) [] (by simp)
  refine ⟨?_, ?_, ?_, ?_⟩
  · intro m h
    exact hcss.1 m h
  · intro m h
    apply hhtml.1 m
    rw [getHTMLContext] at h
    split at h <;> exact h
  · intro m a hm ha
    simp only [getCSSContext, List.mem_map] at ha
    obtain ⟨i, hi, rfl⟩ := ha
    have h2 := hcss.2 i hi
    have h1 := hcss.1 m hm
    refine ⟨h2, ?_⟩
    intro he
    have : i.endPos = m.range.2 := congrArg Prod.snd he
    omega
  · intro m a hm ha
    rw [getHTMLContext] at hm ha
    have hm' : (htmlCtxLoop pos (createOptionsM env opt.xml true)
        (env.scanHTML code (createOptionsM env opt.xml true)) []).1 = some m := by
      split at hm <;> exact hm
    have ha' : a ∈ (htmlCtxLoop pos (createOptionsM env opt.xml true)
        (env.scanHTML code (createOptionsM env opt.xml true)) []).2.map
          (fun i => ({ name := i.name, range := (i.start, i.endPos) } : HTMLAncestor)) := by
      split at ha <;> exact ha
    simp only [List.mem_map] at ha'
    obtain ⟨i, hi, rfl⟩ := ha'
    have h2 := hhtml.2 i hi
    have h1 := hhtml.1 m hm'
    refine ⟨h2, ?_⟩
    intro he
    have : i.endPos = m.range.2 := congrArg Prod.snd he
    omega

/-- Witness for C9 (amended): concrete straddled selector token. -/
theorem c9_witness :
    (0 : Int) < 1 ∧ (1 : Int) ≤ 2 :=
  (c9_straddle_conditions envC9 "ab" 1 none {}).1
    { name := "ab", type := CTokenType.selector, range := (0, 2) } (by decide)

/-- Counterexample for C9 as stated: with a selector token over `[0, 2)` the
stylesheet resolver records it as `current` at position 2, even though
`start < pos < end` fails there (`pos = end`); the markup rule is strict. -/
theorem c9_counterexample :
    (getCSSContext envC9 "ab" 2 none).current =
      some { name := "ab", type := CTokenType.selector, range := (0, 2) } ∧
    ¬ ((2 : Int) < 2) := by
  constructor
  · decide
  · decide

/-! ## C7: pending property name in `selectNextItem` for CSS -/

/-- C7 (amended): while a property name is pending, a scanned block-end
token (any token that is neither selector, property name nor property
value) yields a model that is exactly the pending name's span; but if the
token stream is exhausted while the name is pending, no model is returned. -/
theorem c7_pending_name (env : Env) (code : String) (pos : Int) (t : CToken)
    (rest : List CToken) (pn : CSSTokenRange)
    (h1 : ¬ t.start < pos) (h2 : t.type = CTokenType.blockEnd) :
    selectNextCSSLoop env code pos (t :: rest) (some pn) =
      some { start := pn.1, endPos := pn.2.1, ranges := [(pn.1, pn.2.1)] } ∧
    selectNextCSSLoop env code pos [] (some pn) = none := by
  constructor
  · rw [selectNextCSSLoop, if_neg h1, h2]
    simp [Option.elim]
  · rw [selectNextCSSLoop]

/-- Witness for C7 (amended). -/
theorem c7_witness :
    selectNextCSSLoop envBase "" 0
        [{ type := CTokenType.blockEnd, start := 0, endPos := 1, delimiter := -1 }]
        (some (2, 7, 7)) =
      some { start := 2, endPos := 7, ranges := [((2 : Int), (7 : Int))] } ∧
    selectNextCSSLoop envBase "" 0 [] (some (2, 7, 7)) = none :=
  c7_pending_name envBase "" 0
    { type := CTokenType.blockEnd, start := 0, endPos := 1, delimiter := -1 }
    [] (2, 7, 7) (by decide) rfl

/-- Counterexample for C7 as stated: scanning `a{color:` from position 2
records the name `color` as pending and the stream ends with no following
value token, yet `selectItemCSS` returns nothing instead of the name span. -/
theorem c7_counterexample :
    selectItemCSS envC7 codeC7 2 false = none ∧
    envC7.scanCSS codeC7 =
      [{ type := CTokenType.selector, start := 0, endPos := 1, delimiter := 1 },
       { type := CTokenType.propertyName, start := 2, endPos := 7, delimiter := 7 }] := by
  constructor
  · decide
  · decide

/-! ## C6: property name followed by property name in `parseProperties` -/

/-- C6 (amended): at nesting depth zero, a property-name token scanned while
another name is pending emits a property for the pending name whose value
range is empty and positioned at the pending (first) name's delimiter
offset, translated by the fragment base. -/
theorem c6_empty_value_position (env : Env) (fragment : String) (frm : Int)
    (t : CToken) (rest : List CToken) (pn : CSSTokenRange) (before : Int)
    (acc : List CSSProperty)
    (ht : t.type = CTokenType.propertyName) :
    parsePropsLoop env fragment frm (t :: rest) (some pn) 0 before acc =
      parsePropsLoop env fragment frm rest (some (t.start, t.endPos, t.delimiter)) 0
        (frm + t.start)
        (acc ++ [createProperty env fragment pn before pn.2.2 pn.2.2 pn.2.2 frm]) ∧
    (createProperty env fragment pn before pn.2.2 pn.2.2 pn.2.2 frm).value =
      (frm + pn.2.2, frm + pn.2.2) := by
  constructor
  · rw [parsePropsLoop, ht]
    rfl
  · rfl

/-- Witness for C6 (amended). -/
theorem c6_witness :
    (createProperty envBase "x" (0, 5, 5) 4 5 5 5 4).value = ((9 : Int), 9) :=
  (c6_empty_value_position envBase "x" 4
    { type := CTokenType.propertyName, start := 6, endPos := 16, delimiter := 16 }
    [] (0, 5, 5) 4 [] rfl).2

/-- Counterexample for C6 as stated: in `div{color;background:red}` the
`color` declaration (delimiter `;` at absolute offset 9) is followed by the
name `background` starting at absolute offset 10; the produced empty value
sits at `(9, 9)` — the first name's delimiter — not at the second name's
start `(10, 10)`. -/
theorem c6_counterexample :
    (getCSSSection envC6 codeC6 5 true).map
        (fun s => s.properties.map (List.map CSSProperty.value)) =
      some (some [((9 : Int), (9 : Int)), (21, 24)]) ∧
    envC6.scanCSS fragC6 =
      [{ type := CTokenType.propertyName, start := 0, endPos := 5, delimiter := 5 },
       { type := CTokenType.propertyName, start := 6, endPos := 16, delimiter := 16 },
       { type := CTokenType.propertyValue, start := 17, endPos := 20, delimiter := -1 }] ∧
    ((9 : Int), (9 : Int)) ≠ ((10 : Int), (10 : Int)) := by
  refine ⟨?_, ?_, ?_⟩
  · decide
  · decide
  · decide

/-! ## C8: `createTracker` error handling -/

/-- C8: `createTracker` rejects an invalid range (`start ≥ end`) by
returning nothing, rejects an extracted abbreviation that is empty or
contains a line break by returning nothing, and turns a parse failure of
non-empty single-line text into an `Error`-kind tracker carrying the thrown
message and position — all without raising. -/
theorem c8_createTracker (env : Env) (editor : Editor) (range : Int × Int)
    (params : StartTrackingParams) :
    (range.1 ≥ range.2 → createTracker env editor range params = none) ∧
    (trackerText editor range params.offset = "" ∨
        hasLineBreak (trackerText editor range params.offset) = true →
      createTracker env editor range params = none) ∧
    (∀ e, range.1 < range.2 →
      ¬ (trackerText editor range params.offset = "" ∨
         hasLineBreak (trackerText editor range params.offset) = true) →
      params.config.type = SynType.stylesheet →
      env.stylesheetAbbreviation (trackerText editor range params.offset) =
        Except.error e →
      createTracker env editor range params = some
        { range := range, abbreviation := trackerText editor range params.offset,
          forced := params.forced, offset := params.offset, lastPos := range.2,
          lastLength := editor.size, config := params.config,
          payload := TrackerPayload.error e }) ∧
    (∀ e, range.1 < range.2 →
      ¬ (trackerText editor range params.offset = "" ∨
         hasLineBreak (trackerText editor range params.offset) = true) →
      params.config.type = SynType.markup →
      env.markupAbbreviation (trackerText editor range params.offset)
        (params.config.syntaxName = "jsx") = Except.error e →
      createTracker env editor range params = some
        { range := range, abbreviation := trackerText editor range params.offset,
          forced := params.forced, offset := params.offset, lastPos := range.2,
          lastLength := editor.size, config := params.config,
          payload := TrackerPayload.error e }) := by
  refine ⟨?_, ?_, ?_, ?_⟩
  · intro h
    simp [createTracker, h]
  · intro h
    simp [createTracker, h]
  · intro e hlt habbr hty herr
    have hge : ¬ range.1 ≥ range.2 := by omega
    simp [createTracker, hge, habbr, parseAttempt, hty, herr]
  · intro e hlt habbr hty herr
    have hge : ¬ range.1 ≥ range.2 := by omega
    have hns : params.config.type ≠ SynType.stylesheet := by
      rw [hty]
      decide
    simp [createTracker, hge, habbr, parseAttempt, hns, herr]

/-- Witness for C8: a concrete stylesheet parse failure yields the
corresponding `Error` tracker. -/
theorem c8_witness :
    createTracker envBase edC8 (0, 2) { config := configC8, offset := 0, forced := false } =
      some { range := (0, 2),
             abbreviation := trackerText edC8 (0, 2) 0,
             forced := false, offset := 0, lastPos := 2, lastLength := edC8.size,
             config := configC8,
             payload := TrackerPayload.error { message := "err", pos := 0 } } :=
  (c8_createTracker envBase edC8 (0, 2)
      { config := configC8, offset := 0, forced := false }).2.2.1
    { message := "err", pos := 0 } (by decide) (by decide) rfl rfl

/-! ## C1: `lastPos` versus the tracked range -/

theorem createTracker_lastPos (env : Env) (editor : Editor) (range : Int × Int)
    (params : StartTrackingParams) (t : Tracker)
    (h : createTracker env editor range params = some t) :
    t.lastPos = t.range.2 ∧ t.range.1 < t.range.2 := by
  rw [createTracker] at h
  split at h
  · exact absurd h (by simp)
  · next hge =>
    split at h
    · exact absurd h (by simp)
    · injection h with h'
      subst h'
      refine ⟨rfl, ?_⟩
      show range.1 < range.2
      omega

theorem startTracking_lastPos (env : Env) (editor : Editor) (st : CtrlState)
    (start pos : Int) (config? : Option UserConfig) (offset : Int) (forced : Bool)
    (t : Tracker) (st' : CtrlState)
    (h : startTracking env editor st start pos config? offset forced = (some t, st')) :
    t.lastPos = t.range.2 ∧ t.range.1 < t.range.2 := by
  rw [startTracking] at h
  split at h
  · next t0 heq =>
    have h' : some t0 = some t := congrArg Prod.fst h
    injection h' with h''
    subst h''
    exact createTracker_lastPos _ _ _ _ _ heq
  · next heq =>
    have h' : (none : Option Tracker) = some t := congrArg Prod.fst h
    simp at h'

theorem typingAbbreviationGo_lastPos (env : Env) (editor : Editor) (st : CtrlState)
    (pos : Int) (pfx : String) (start offset : Int) (t : Tracker) (st' : CtrlState)
    (h : typingAbbreviationGo env editor st pos pfx start offset = (some t, st')) :
    t.lastPos = t.range.2 ∧ t.range.1 < t.range.2 := by
  rw [typingAbbreviationGo] at h
  split at h
  · split at h
    · exact absurd (congrArg Prod.fst h) (by simp)
    · split at h
      · exact absurd (congrArg Prod.fst h) (by simp)
      · split at h
        · next t1 st1 heq =>
          split at h
          · split at h
            · exact absurd (congrArg Prod.fst h) (by simp)
            · have h' : some t1 = some t := congrArg Prod.fst h
              injection h' with h''
              subst h''
              exact startTracking_lastPos _ _ _ _ _ _ _ _ _ _ heq
          · have h' : some t1 = some t := congrArg Prod.fst h
            injection h' with h''
            subst h''
            exact startTracking_lastPos _ _ _ _ _ _ _ _ _ _ heq
        · exact absurd (congrArg Prod.fst h) (by simp)
  · exact absurd (congrArg Prod.fst h) (by simp)

theorem typingAbbreviation_lastPos (env : Env) (editor : Editor) (st : CtrlState)
    (pos : Int) (t : Tracker) (st' : CtrlState)
    (h : typingAbbreviation env editor st pos = (some t, st')) :
    t.lastPos = t.range.2 ∧ t.range.1 < t.range.2 := by
  rw [typingAbbreviation] at h
  exact typingAbbreviationGo_lastPos _ _ _ _ _ _ _ _ _ h

/-- C1 (amended): whenever `handleChange` or `handleSelectionChange` returns
a tracker and the caret position passed to the call lies inside the returned
tracker's range, the tracker satisfies `range[0] ≤ lastPos ≤ range[1]`
(a tracker freshly created by typing detection satisfies it even without
the caret hypothesis, since its `lastPos` is its range end). -/
theorem c1_lastPos_in_range (env : Env) (editor : Editor) (st : CtrlState)
    (pos : Int) (t : Tracker)
    (h : (handleSelectionChange env editor st pos).1 = some t ∨
         (handleChange env editor st pos).1 = some t)
    (h1 : t.range.1 ≤ pos) (h2 : pos ≤ t.range.2) :
    t.range.1 ≤ t.lastPos ∧ t.lastPos ≤ t.range.2 := by
  rcases h with h | h
  · rw [handleSelectionChange] at h
    simp only [] at h
    have hp : t.lastPos = pos := by
      split at h
      · next t0 heq =>
        injection h with h'
        subst h'
        rfl
      · split at h
        · next t0 st1 heq =>
          injection h with h'
          subst h'
          rfl
        · simp at h
    exact ⟨hp ▸ h1, hp ▸ h2⟩
  · rw [handleChange] at h
    simp only [] at h
    split at h
    · next heqt =>
      split at h
      · have hfull : typingAbbreviation env editor
            { st with lastPosMap := setK st.lastPosMap editor.id pos } pos =
            (some t, (typingAbbreviation env editor
              { st with lastPosMap := setK st.lastPosMap editor.id pos } pos).2) :=
          Prod.ext h rfl
        obtain ⟨hl, hlt⟩ := typingAbbreviation_lastPos _ _ _ _ _ _ hfull
        omega
      · simp at h
    · next tracker heqt =>
      split at h
      · simp at h
      · next hguard =>
        split at h
        · next hfe =>
          injection h with h'
          subst h'
          show tracker.range.1 ≤ tracker.lastPos ∧ tracker.lastPos ≤ tracker.range.2
          omega
        · split at h
          · simp at h
          · next next_ heqc =>
            split at h
            · simp at h
            · injection h with h'
              subst h'
              exact ⟨h1, h2⟩

/-- Witness for C1 (amended): caret at 1 inside the active range `[0, 2)`. -/
theorem c1_witness : (0 : Int) ≤ 1 ∧ (1 : Int) ≤ 2 := by
  have h := c1_lastPos_in_range envBase edW stW 1 { trackerW with lastPos := 1 }
    (Or.inl (by decide)) (by decide) (by decide)
  exact h

/-- Counterexample for C1 as stated: with an active tracker over `[0, 2)`,
a `handleSelectionChange` call with the caret at 5 (outside the range)
still returns the tracker, whose `lastPos` becomes 5 — violating
`range[0] ≤ lastPos ≤ range[1]` while tracking has not ended. -/
theorem c1_counterexample :
    ((handleSelectionChange envBase edW stW 5).1.map fun t => (t.range, t.lastPos)) =
      some (((0 : Int), (2 : Int)), (5 : Int)) ∧
    ¬ ((5 : Int) ≤ 2) := by
  constructor
  · decide
  · decide

/-! ## C4: `getCSSSection` containment -/

theorem sectionLoop_sound (pos : Int) :
    ∀ (l : List CToken) (stack : List CSSTokenRange),
      (∀ t ∈ l, cTokOk t) → cssOrdered l →
      (∀ s ∈ stack, s.1 ≤ s.2.1 ∧ s.2.1 ≤ s.2.2 ∧ ∀ u ∈ l, s.2.2 + 1 ≤ u.start) →
      ∀ r, sectionLoop pos l stack = some r →
        r.1 ≤ pos ∧ pos ≤ r.2.1 ∧ r.1 ≤ r.2.2.1 ∧ r.2.2.1 ≤ r.2.2.2 ∧ r.2.2.2 ≤ r.2.1
  | [], stack, hok, hord, hstack, r, hr => by simp [sectionLoop] at hr
  | t :: rest, stack, hok, hord, hstack, r, hr => by
      have hokt : cTokOk t := hok t (List.mem_cons_self t rest)
      have hokrest : ∀ u ∈ rest, cTokOk u :=
        fun u hu => hok u (List.mem_cons_of_mem t hu)
      have hordrest : cssOrdered rest := (List.pairwise_cons.mp hord).2
      have hhead : ∀ u ∈ rest, upperB t ≤ u.start := (List.pairwise_cons.mp hord).1
      rw [sectionLoop] at hr
      split at hr
      · exact absurd hr (by simp)
      · split at hr
        · next hsel =>
          refine sectionLoop_sound pos rest _ hokrest hordrest ?_ r hr
          intro s hs
          rcases List.mem_append.mp hs with hmem | hmem
          · obtain ⟨ha, hb, hc⟩ := hstack s hmem
            exact ⟨ha, hb, fun u hu => hc u (List.mem_cons_of_mem t hu)⟩
          · simp only [List.mem_singleton] at hmem
            subst hmem
            refine ⟨hokt.1, hokt.2 hsel, ?_⟩
            intro u hu
            have := hhead u hu
            rw [upperB, if_pos hsel] at this
            exact this
        · split at hr
          · split at hr
            · next sel hlast =>
              split at hr
              · next hin =>
                injection hr with hr'
                subst hr'
                obtain ⟨ha, hb, hc⟩ := hstack sel (getLast?_mem_own stack sel hlast)
                have hts := hc t (List.mem_cons_self t rest)
                refine ⟨hin.1, hin.2, ?_, hts, hokt.1⟩
                show sel.1 ≤ sel.2.2 + 1
                omega
              · refine sectionLoop_sound pos rest _ hokrest hordrest ?_ r hr
                intro s hs
                obtain ⟨ha, hb, hc⟩ := hstack s (mem_of_mem_dropLast_own stack s hs)
                exact ⟨ha, hb, fun u hu => hc u (List.mem_cons_of_mem t hu)⟩
            · refine sectionLoop_sound pos rest _ hokrest hordrest ?_ r hr
              intro s hs
              obtain ⟨ha, hb, hc⟩ := hstack s hs
              exact ⟨ha, hb, fun u hu => hc u (List.mem_cons_of_mem t hu)⟩
          · refine sectionLoop_sound pos rest _ hokrest hordrest ?_ r hr
            intro s hs
            obtain ⟨ha, hb, hc⟩ := hstack s hs
            exact ⟨ha, hb, fun u hu => hc u (List.mem_cons_of_mem t hu)⟩

/-- C4: under scanner well-formedness (ranges with `start ≤ end`, selector
delimiters at or after the selector text, tokens in document order), every
section result of `getCSSSection` satisfies
`start ≤ bodyStart ≤ bodyEnd ≤ end` and contains the queried position. -/
theorem c4_section_containment (env : Env) (code : String) (pos : Int)
    (props : Bool) (s : CSSSection)
    (h1 : ∀ t ∈ env.scanCSS code, cTokOk t)
    (h2 : cssOrdered (env.scanCSS code))
    (hs : getCSSSection env code pos props = some s) :
    s.start ≤ s.bodyStart ∧ s.bodyStart ≤ s.bodyEnd ∧ s.bodyEnd ≤ s.endPos ∧
    s.start ≤ pos ∧ pos ≤ s.endPos := by
  rw [getCSSSection] at hs
  split at hs
  · exact absurd hs (by simp)
  · next s0 e0 bs0 be0 heq =>
    have hout := sectionLoop_sound pos (env.scanCSS code) [] h1 h2 (by simp)
      (s0, e0, bs0, be0) heq
    injection hs with hs'
    subst hs'
    obtain ⟨a, b, c, d, e⟩ := hout
    exact ⟨c, d, e, a, b⟩

/-- Witness for C4: the token stream of `a{b:c}` queried at position 3. -/
theorem c4_witness :
    (0 : Int) ≤ 2 ∧ (2 : Int) ≤ 5 ∧ (5 : Int) ≤ 6 ∧ (0 : Int) ≤ 3 ∧ (3 : Int) ≤ 6 := by
  have h := c4_section_containment envC4 "a\x7bb:c\x7d" 3 false
    { start := 0, endPos := 6, bodyStart := 2, bodyEnd := 5, properties := none }
    (by decide) (by decide) (by decide)
  exact h

/-! ## C5: the Selection-model `ranges` invariant -/

theorem noEmptyDup_append : ∀ (rs : List (Int × Int)) (r : Int × Int),
    noEmptyDup rs = true → r.1 ≠ r.2 → rs.getLast? ≠ some r →
    noEmptyDup (rs ++ [r]) = true
  | [], r, _, hr, _ => by simp [noEmptyDup, hr]
  | [a], r, h, hr, hl => by
      have ha : a.1 ≠ a.2 := by simpa [noEmptyDup] using h
      have hne : a ≠ r := fun he => hl (by rw [List.getLast?_singleton, he])
      simp [noEmptyDup, ha, hne, hr]
  | a :: b :: t, r, h, hr, hl => by
      have h1 : ((a.1 ≠ a.2) ∧ a ≠ b) ∧ noEmptyDup (b :: t) = true := by
        simpa [noEmptyDup] using h
      have hl' : (b :: t).getLast? ≠ some r := by
        rwa [List.getLast?_cons_cons] at hl
      have ih := noEmptyDup_append (b :: t) r h1.2 hr hl'
      rw [List.cons_append] at ih ⊢
      rw [List.cons_append]
      simp only [noEmptyDup]
      rw [ih]
      simp [h1.1.1, h1.1.2]

theorem noEmptyDup_pushRange (rs : List (Int × Int)) (r : Int × Int)
    (h : noEmptyDup rs = true) : noEmptyDup (pushRange rs r) = true := by
  rw [pushRange]
  split
  · next hcond => exact noEmptyDup_append rs r h hcond.1 hcond.2
  · exact h

theorem noEmptyDup_foldl {α : Type} (step : List (Int × Int) → α → List (Int × Int))
    (hstep : ∀ acc x, noEmptyDup acc = true → noEmptyDup (step acc x) = true) :
    ∀ (l : List α) (acc : List (Int × Int)), noEmptyDup acc = true →
      noEmptyDup (l.foldl step acc) = true
  | [], _, h => h
  | x :: t, acc, h =>
      noEmptyDup_foldl step hstep t (step acc x) (hstep acc x h)

theorem noEmptyDup_attrStep (tagSrc : String) (start : Int)
    (rs : List (Int × Int)) (attr : AttrToken) (h : noEmptyDup rs = true) :
    noEmptyDup (attrRangesStep tagSrc start rs attr) = true := by
  rw [attrRangesStep]
  split
  · next v =>
    simp only []
    split
    · split
      · exact noEmptyDup_foldl pushRange (fun acc x hx => noEmptyDup_pushRange acc x hx)
          _ _ (noEmptyDup_pushRange _ _ (noEmptyDup_pushRange _ _ h))
      · exact noEmptyDup_pushRange _ _ (noEmptyDup_pushRange _ _ h)
    · exact noEmptyDup_pushRange _ _ h
  · exact noEmptyDup_pushRange _ _ h

theorem noEmptyDup_tagModel (env : Env) (code name : String) (start endP : Int)
    (hname : 0 < name.length) :
    noEmptyDup (getTagSelectionModel env code name start endP).ranges = true := by
  rw [getTagSelectionModel]
  refine noEmptyDup_foldl _ (fun acc x hx => noEmptyDup_attrStep _ _ acc x hx) _ _ ?_
  simp [noEmptyDup]
  omega

theorem selectNextHTML_ranges (env : Env) (code : String) (pos : Int) :
    ∀ (l : List HToken), (∀ t ∈ l, 0 < t.name.length) →
      ∀ m, selectNextHTMLLoop env code pos l = some m → noEmptyDup m.ranges = true
  | [], _, m, h => by simp [selectNextHTMLLoop] at h
  | t :: rest, hl, m, h => by
      rw [selectNextHTMLLoop] at h
      split at h
      · injection h with h'
        subst h'
        exact noEmptyDup_tagModel env code t.name t.start t.endPos
          (hl t (List.mem_cons_self t rest))
      · exact selectNextHTML_ranges env code pos rest
          (fun u hu => hl u (List.mem_cons_of_mem t hu)) m h

theorem selectPrevHTML_accum (pos : Int) :
    ∀ (l : List HToken) (accum : Option (String × Int × Int)),
      (∀ t ∈ l, 0 < t.name.length) →
      (∀ n s e, accum = some (n, s, e) → 0 < n.length) →
      ∀ n s e, selectPrevHTMLLoop pos l accum = some (n, s, e) → 0 < n.length
  | [], _, _, hacc, n, s, e, h => hacc n s e h
  | t :: rest, accum, hl, hacc, n, s, e, h => by
      rw [selectPrevHTMLLoop] at h
      split at h
      · exact hacc n s e h
      · split at h
        · refine selectPrevHTML_accum pos rest _
            (fun u hu => hl u (List.mem_cons_of_mem t hu)) ?_ n s e h
          intro n' s' e' he
          injection he with he'
          have hn : t.name = n' := congrArg Prod.fst he'
          rw [← hn]
          exact hl t (List.mem_cons_self t rest)
        · exact selectPrevHTML_accum pos rest _
            (fun u hu => hl u (List.mem_cons_of_mem t hu)) hacc n s e h

theorem selectNextCSS_ranges (env : Env) (code : String) (pos : Int) :
    ∀ (l : List CToken) (pending : Option CSSTokenRange),
      (∀ t ∈ l, t.start < t.endPos) →
      (∀ pn, pending = some pn → pn.1 < pn.2.1) →
      ∀ m, selectNextCSSLoop env code pos l pending = some m → noEmptyDup m.ranges = true
  | [], _, _, _, m, h => by simp [selectNextCSSLoop] at h
  | t :: rest, pending, hl, hp, m, h => by
      have hlr : ∀ u ∈ rest, u.start < u.endPos :=
        fun u hu => hl u (List.mem_cons_of_mem t hu)
      rw [selectNextCSSLoop] at h
      split at h
      · exact selectNextCSS_ranges env code pos rest pending hlr hp m h
      · split at h
        · -- selector
          injection h with h'
          subst h'
          have := hl t (List.mem_cons_self t rest)
          simp [noEmptyDup]
          omega
        · split at h
          · -- property name
            refine selectNextCSS_ranges env code pos rest _ hlr ?_ m h
            intro pn hpn
            injection hpn with hpn'
            subst hpn'
            exact hl t (List.mem_cons_self t rest)
          · split at h
            · -- property value
              injection h with h'
              subst h'
              simp only [nextValueModel.eq_def]
              refine noEmptyDup_foldl _ (fun acc x hx => noEmptyDup_pushRange _ _ hx) _ _
                (noEmptyDup_pushRange _ _ ?_)
              cases pending with
              | none => rfl
              | some pn => exact noEmptyDup_pushRange _ _ rfl
            · -- block end (or any other kind): the pending branch
              cases pending with
              | none =>
                exact selectNextCSS_ranges env code pos rest none hlr (by simp) m h
              | some pn =>
                simp only [Option.elim] at h
                injection h with h'
                subst h'
                have := hp _ rfl
                simp [noEmptyDup]
                omega

theorem prevCSSLoop_ok (pos : Int) :
    ∀ (l : List CToken) (st : PrevCSSState),
      (∀ t ∈ l, t.start < t.endPos) →
      (st.type.isSome → st.start < st.endP) →
      ((prevCSSLoop pos l st).type.isSome →
        (prevCSSLoop pos l st).start < (prevCSSLoop pos l st).endP)
  | [], _, _, hst => hst
  | t :: rest, st, hl, hst => by
      have hlr : ∀ u ∈ rest, u.start < u.endPos :=
        fun u hu => hl u (List.mem_cons_of_mem t hu)
      rw [prevCSSLoop]
      split
      · exact hst
      · split
        · refine prevCSSLoop_ok pos rest _ hlr ?_
          intro _
          show t.start < t.endPos
          exact hl t (List.mem_cons_self t rest)
        · split
          · exact prevCSSLoop_ok pos rest _ hlr hst
          · exact prevCSSLoop_ok pos rest _ hlr hst

/-- C5: under scanner well-formedness (non-empty token ranges for the
stylesheet scanner and non-empty tag names for the markup scanner), every
Selection model returned by `selectItemHTML` or `selectItemCSS` — in either
direction — has a `ranges` sequence with no empty entry and no two
consecutive identical entries. -/
theorem c5_selection_ranges (env : Env) (code : String) (pos : Int) (isPrev : Bool)
    (hh : ∀ t ∈ env.scanHTML code (createOptionsM env false false), 0 < t.name.length)
    (hc : ∀ t ∈ env.scanCSS code, t.start < t.endPos) :
    (∀ m, selectItemHTML env code pos isPrev = some m → noEmptyDup m.ranges = true) ∧
    (∀ m, selectItemCSS env code pos isPrev = some m → noEmptyDup m.ranges = true) := by
  constructor
  · intro m hm
    rw [selectItemHTML] at hm
    split at hm
    · rw [selectPreviousItemHTML] at hm
      split at hm
      · next n s e heq =>
        injection hm with hm'
        subst hm'
        exact noEmptyDup_tagModel env code n s e
          (selectPrevHTML_accum pos _ none hh (by simp) n s e heq)
      · exact absurd hm (by simp)
    · exact selectNextHTML_ranges env code pos _ hh m hm
  · intro m hm
    rw [selectItemCSS] at hm
    split at hm
    · rw [selectPreviousItemCSS] at hm
      simp only [] at hm
      have hok := prevCSSLoop_ok pos (env.scanCSS code)
        { type := none, start := -1, endP := -1, valueStart := -1, valueEnd := -1,
          valueDelimiter := -1 } hc (by simp)
      split at hm
      · next heq =>
        injection hm with hm'
        subst hm'
        have hlt := hok (by rw [heq]; rfl)
        simp [noEmptyDup]
        omega
      · split at hm
        · injection hm with hm'
          subst hm'
          refine noEmptyDup_foldl _ (fun acc x hx => noEmptyDup_pushRange _ _ hx) _ _
            (noEmptyDup_pushRange _ _ (noEmptyDup_pushRange _ _ rfl))
        · injection hm with hm'
          subst hm'
          exact noEmptyDup_pushRange _ _ rfl
      · exact absurd hm (by simp)
    · exact selectNextCSS_ranges env code pos _ none hc (by simp) m hm

/-- Witness for C5: a concrete one-selector stream. -/
theorem c5_witness : noEmptyDup [((0 : Int), (2 : Int))] = true :=
  (c5_selection_ranges envC5 "ab" 0 false (by decide) (by decide)).2
    { start := 0, endPos := 2, ranges := [(0, 2)] } (by decide)
